import Mathlib

/-!
Shallow embedding of the F1 race-time simulation core
(`src/run.py`, `src/New/run.py`, `src/driver.py`, `src/New/driver.py`,
`src/New/pit_stop.py`) and proofs about its specification.

Conventions of the embedding:
* Python floats are modelled as rationals (`ℚ`).
* Randomness is made explicit: sampled values are consumed from a list
  `List ℚ` threaded through the computation (one entry per draw), and the
  pre-race DNF / safety-car Bernoulli draws are supplied as oracles.
* The statistical fitting code (regression, Fisk calibration) is out of
  scope of the core; a fitted model is a function field, and a pit-duration
  calibration is `Option ℚ` (`none` models the data-lookup `ValueError`
  raised and caught inside `_pit_stop`).
* Two source revisions exist: `src/run.py` (imported by `src/main.py` and
  `src/monte_carlo_simulator.py`; functions keep their plain names here)
  and `src/New/run.py` (functions carry the `New` suffix here).
-/

namespace F1Sim

/-- One numbered entry of a pit-stop strategy mapping
(`{compound, pit_stop_lap, pitstop_interval, tire_age}` in `src/main.py`). -/
structure StopEntry where
  compound : String
  pitStopLap : ℕ
  intervalLo : ℕ
  intervalHi : ℕ
  tireAge : ℕ
  deriving DecidableEq

/-- The mutable per-driver simulation state of `Driver`
(`src/driver.py`).  `stops` is the integer-keyed part of
`pit_stops_info`; `model` is the fitted `fuel_tire_model.predict`
interface (fuel, compound, tire age ↦ predicted lap-time delta). -/
@[ext]
structure DriverSt where
  driverId : ℕ
  name : String
  team : String
  position : Option ℕ
  bestQualifTime : ℚ
  currentLapTime : ℚ
  cumulativeLapTime : ℚ
  fuelc : ℚ
  nextPitStop : ℕ
  stops : ℕ → Option StopEntry
  compound : String
  tireAge : ℕ
  earliestDnfLap : Option ℕ
  alive : Bool
  model : ℚ → String → ℕ → ℚ
  variability : ℚ

/-- `Driver.update_status` in `src/driver.py`: if an earliest DNF lap is
set and `current_lap >= earliest_dnf_lap`, the driver stops. -/
def update_status (d : DriverSt) (currentLap : ℕ) : DriverSt :=
  match d.earliestDnfLap with
  | some k => if k ≤ currentLap then { d with alive := false } else d
  | none => d

/-- `Driver.update_status` in `src/New/driver.py`: the driver stops only
on the lap that equals `earliest_dnf_lap`. -/
def update_statusNew (d : DriverSt) (currentLap : ℕ) : DriverSt :=
  if d.alive ∧ d.earliestDnfLap = some currentLap then { d with alive := false } else d

/-- `Driver.update_info` in `src/driver.py`: tire age grows by one and
fuel decreases by `100/total_laps`, clamped at zero. -/
def update_info (d : DriverSt) (currentLap totalLaps : ℕ) : DriverSt :=
  { d with tireAge := d.tireAge + 1, fuelc := max (d.fuelc - 100 / totalLaps) 0 }

/-- `Driver.update_info` in `src/New/driver.py`: tire age grows by one and
fuel is set to `100 - (100/total_laps) * current_lap` (no clamp). -/
def update_infoNew (d : DriverSt) (currentLap totalLaps : ℕ) : DriverSt :=
  { d with tireAge := d.tireAge + 1,
           fuelc := 100 - (100 / (totalLaps : ℚ)) * currentLap }

/-- Immutable per-race configuration of a `Run` instance: lap count,
test-mode flag, starting grid, the location's test-mode DNF table and
safety-car table, and the pit-duration calibration result per team
(`none` models the `ValueError` of a failed data lookup inside
`PitStop`). -/
structure RaceCfg where
  numberOfLaps : ℕ
  testMode : Bool
  startingGrid : List (ℕ × ℕ)
  dnfTable : String → Option ℕ
  scTable : List ℕ
  pitCalib : String → Option ℚ

/-- The pit-duration computation performed by the `PitStop` object inside
`_pit_stop`: `calculate_best_pit_stop_duration` (the baseline) followed by
`calculate_pit_stop_duration`, which adds one Fisk-distributed draw taken
from the random stream.  A failed historical-data lookup raises
`ValueError`, modelled by the `Except.error` branch; it consumes no draw. -/
def calcPitDuration (cfg : RaceCfg) (team : String) (rng : List ℚ) :
    Except String (ℚ × List ℚ) :=
  match cfg.pitCalib team with
  | none => Except.error "no historical pit-stop data"
  | some b => Except.ok (b + rng.headD 0, rng.tail)

/-- `Run._pit_stop` in `src/run.py`.  A stop is attempted when the lap
equals the scheduled `pit_stop_lap` or lies in
`range(*pitstop_interval)` (half-open).  The returned triple is the added
time, the updated driver and the remaining random stream; the
`except ValueError` branch returns `0.0` with the driver unchanged. -/
def pit_stop (cfg : RaceCfg) (d : DriverSt) (currentLap : ℕ) (rng : List ℚ) :
    ℚ × DriverSt × List ℚ :=
  match d.stops d.nextPitStop with
  | none => (0, d, rng)
  | some entry =>
    if currentLap = entry.pitStopLap ∨
        (entry.intervalLo ≤ currentLap ∧ currentLap < entry.intervalHi) then
      match calcPitDuration cfg d.team rng with
      | Except.error _ => (0, d, rng)
      | Except.ok (dur, rng') =>
        (dur,
         { d with tireAge := entry.tireAge, compound := entry.compound,
                  nextPitStop := d.nextPitStop + 1 },
         rng')
    else (0, d, rng)

/-- `Run._pit_stop` in `src/New/run.py`.  A stop is attempted when the lap
equals the scheduled `pit_stop_lap`, or is under an active safety car and
inside `range(interval[0], interval[1] + 1)` (both bounds inclusive). -/
def pit_stopNew (cfg : RaceCfg) (sc : List ℕ) (d : DriverSt) (currentLap : ℕ)
    (rng : List ℚ) : ℚ × DriverSt × List ℚ :=
  match d.stops d.nextPitStop with
  | none => (0, d, rng)
  | some entry =>
    if currentLap = entry.pitStopLap ∨
        (currentLap ∈ sc ∧ entry.intervalLo ≤ currentLap ∧ currentLap ≤ entry.intervalHi) then
      match calcPitDuration cfg d.team rng with
      | Except.error _ => (0, d, rng)
      | Except.ok (dur, rng') =>
        (dur,
         { d with tireAge := entry.tireAge, compound := entry.compound,
                  nextPitStop := d.nextPitStop + 1 },
         rng')
    else (0, d, rng)

/-- The pit-stop condition exactly as the specification words it: the lap
equals the scheduled pit lap, or the lap is under an active safety car and
inside the pit window, both bounds inclusive. -/
def specPitCondition (entry : StopEntry) (currentLap : ℕ) (sc : List ℕ) : Prop :=
  currentLap = entry.pitStopLap ∨
    (currentLap ∈ sc ∧ entry.intervalLo ≤ currentLap ∧ currentLap ≤ entry.intervalHi)

instance (entry : StopEntry) (currentLap : ℕ) (sc : List ℕ) :
    Decidable (specPitCondition entry currentLap sc) := by
  unfold specPitCondition; infer_instance

/-- `Run._compute_lap_time` in `src/run.py`: fitted model prediction plus
the driver's best qualifying time, plus a Gaussian residual draw (zero in
test mode, one stream draw otherwise), multiplied by `1.2` under an
active safety car. -/
def compute_lap_time (cfg : RaceCfg) (sc : List ℕ) (d : DriverSt) (currentLap : ℕ)
    (rng : List ℚ) : ℚ × List ℚ :=
  let base := d.model d.fuelc d.compound d.tireAge
  let vr : ℚ × List ℚ := if cfg.testMode then (0, rng) else (rng.headD 0, rng.tail)
  let lt := d.bestQualifTime + base + vr.1
  (if currentLap ∈ sc then lt * (6 / 5) else lt, vr.2)

/-- The body executed for one driver inside the lap loop of `Run.run`
(`src/run.py` lines 108-117): status update, then for a running driver
tire/fuel advance, lap-time computation, pit-stop resolution and
accumulation; a retired driver contributes a zero lap time. -/
def driverLap (cfg : RaceCfg) (sc : List ℕ) (lap : ℕ) (d : DriverSt) (rng : List ℚ) :
    DriverSt × List ℚ :=
  let d1 := update_status d lap
  if d1.alive then
    let d2 := update_info d1 lap cfg.numberOfLaps
    let ltr := compute_lap_time cfg sc d2 lap rng
    let ptr := pit_stop cfg d2 lap ltr.2
    let tot := ltr.1 + ptr.1
    ({ ptr.2.1 with currentLapTime := tot,
                    cumulativeLapTime := ptr.2.1.cumulativeLapTime + tot }, ptr.2.2)
  else ({ d1 with currentLapTime := 0 }, rng)

/-- Sequential traversal of the drivers list threading the random
stream, as the `for driver in self.drivers_list` loop does. -/
def mapRng (f : DriverSt → List ℚ → DriverSt × List ℚ) :
    List DriverSt → List ℚ → List DriverSt × List ℚ
  | [], rng => ([], rng)
  | d :: ds, rng =>
    let r1 := f d rng
    let r2 := mapRng f ds r1.2
    (r1.1 :: r2.1, r2.2)

/-- Index of the first occurrence of `i` in a list of naturals (the
length if absent), mirroring the `enumerate` searches of the source. -/
def listIdx (i : ℕ) : List ℕ → ℕ
  | [] => 0
  | x :: xs => if x = i then 0 else listIdx i xs + 1

/-- The per-lap position update of `Run.run` (`src/run.py` lines
119-124): every running driver receives `_get_driver_position` (its rank
by cumulative time among running drivers, ties kept in list order, as
Python's stable sort does), every retired driver's position is cleared.
Drivers are identified by their index in the list, matching the object
identity used by `_get_driver_position`. -/
def positionsUpdate (ds : List DriverSt) : List DriverSt :=
  let sortedAlive :=
    ((ds.enum.filter fun p => p.2.alive).insertionSort
      fun a b => a.2.cumulativeLapTime ≤ b.2.cumulativeLapTime).map Prod.fst
  ds.enum.map fun p =>
    if p.2.alive then { p.2 with position := some (listIdx p.1 sortedAlive + 1) }
    else { p.2 with position := none }

/-- One row of `laps_summary`. -/
structure SummaryRow where
  lap : ℕ
  driverId : ℕ
  position : Option ℕ
  lapTime : ℚ
  cumulative : ℚ
  status : String
  deriving DecidableEq

/-- The whole mutable state of a `Run` during the lap loop. -/
structure SimSt where
  drivers : List DriverSt
  safetyCarLaps : List ℕ
  rng : List ℚ
  summary : List SummaryRow

/-- One full lap of `Run.run`: the per-driver loop, the position update,
and the summary records appended for every driver that is running or
retires exactly on this lap. -/
def lapBody (cfg : RaceCfg) (lap : ℕ) (s : SimSt) : SimSt :=
  let dr := mapRng (driverLap cfg s.safetyCarLaps lap) s.drivers s.rng
  let ds := positionsUpdate dr.1
  let rows := (ds.filter fun d => d.alive ∨ d.earliestDnfLap = some lap).map fun d =>
    { lap := lap, driverId := d.driverId, position := d.position,
      lapTime := d.currentLapTime, cumulative := d.cumulativeLapTime,
      status := if d.alive then "running" else "DNF" }
  { drivers := ds, safetyCarLaps := s.safetyCarLaps, rng := dr.2,
    summary := s.summary ++ rows }

/-- State after the laps `1, …, k` of the loop `for lap in range(1,
number_of_laps + 1)` have been executed. -/
def statesUpTo (cfg : RaceCfg) (s0 : SimSt) : ℕ → SimSt
  | 0 => s0
  | k + 1 => lapBody cfg (k + 1) (statesUpTo cfg s0 k)

/-- The safety-car deployment block of
`_initialize_retirements_and_safety_car` (`src/run.py` lines 282-285):
laps `dnf_lap … min(dnf_lap + 4, number_of_laps)` are appended to
`safety_car_laps`, skipping laps already present. -/
def addSafetyCarLaps (dnfLap n : ℕ) (sc : List ℕ) : List ℕ :=
  (List.range' dnfLap (min (dnfLap + 4) n + 1 - dnfLap)).foldl
    (fun acc lap => if lap ∈ acc then acc else acc ++ [lap]) sc

/-- Oracle for the pre-race random draws of
`_initialize_retirements_and_safety_car` in probabilistic mode: per
driver index, the earliest DNF lap resulting from `simulate_dnf_lap`
(minimum of the accident and failure draws, `none` if neither fired) and
whether the safety-car Bernoulli draw fired. -/
structure DnfOracle where
  dnfLap : ℕ → Option ℕ
  scFire : ℕ → Bool

/-- `Run.simulate_dnf_lap` in test mode (`src/run.py` lines 338-346):
the location's fixed DNF table assigns `earliest_dnf_lap` to the drivers
it names and leaves the rest untouched. -/
def simulate_dnf_lap_test (cfg : RaceCfg) (d : DriverSt) : DriverSt :=
  match cfg.dnfTable d.name with
  | some k => { d with earliestDnfLap := some k }
  | none => d

/-- `Run._initialize_retirements_and_safety_car` (`src/run.py` lines
267-285).  In test mode only the DNF table is applied.  Otherwise every
driver receives its oracle DNF lap and, when that lap is truthy (Python:
non-`None` and non-zero) and the safety-car draw fired, the safety-car
window is added.  `initStep` is the body of the per-driver loop. -/
def initStep (cfg : RaceCfg) (orc : DnfOracle) (acc : List DriverSt × List ℕ)
    (p : ℕ × DriverSt) : List DriverSt × List ℕ :=
  (acc.1 ++ [{ p.2 with earliestDnfLap := orc.dnfLap p.1 }],
   match orc.dnfLap p.1 with
   | some k =>
     if k ≠ 0 ∧ orc.scFire p.1 then addSafetyCarLaps k cfg.numberOfLaps acc.2 else acc.2
   | none => acc.2)

def initRetirementsAndSafetyCar (cfg : RaceCfg) (orc : DnfOracle)
    (ds : List DriverSt) (sc : List ℕ) : List DriverSt × List ℕ :=
  if cfg.testMode then (ds.map (simulate_dnf_lap_test cfg), sc)
  else ds.enum.foldl (initStep cfg orc) (([] : List DriverSt), sc)

/-- Helper for `_add_starting_grid_time`: apply `f` to the first driver
whose id matches (the `next(...)` lookup in `src/run.py` line 178),
leaving the list unchanged when no driver matches. -/
def updateFirst (ds : List DriverSt) (i : ℕ) (f : DriverSt → DriverSt) : List DriverSt :=
  match ds with
  | [] => []
  | d :: rest => if d.driverId = i then f d :: rest else d :: updateFirst rest i f

/-- `Run._add_starting_grid_time` (`src/run.py` lines 174-182): each grid
entry adds `position * 0.25` seconds to the matching driver's cumulative
time. -/
def add_starting_grid_time (grid : List (ℕ × ℕ)) (ds : List DriverSt) : List DriverSt :=
  grid.foldl
    (fun ds p =>
      updateFirst ds p.1 fun d =>
        { d with cumulativeLapTime := d.cumulativeLapTime + p.2 * (1 / 4 : ℚ) })
    ds

/-- The sort key `d.earliest_dnf_lap or np.inf` used for retirees in the
final classification of `src/run.py` (line 151): Python's `or` maps both
`None` and `0` to infinity. -/
def dnfSortKey (d : DriverSt) : WithTop ℕ :=
  match d.earliestDnfLap with
  | some k => if k = 0 then ⊤ else (k : WithTop ℕ)
  | none => ⊤

/-- The `finishers` list of `Run.run` (`src/run.py` lines 145-148):
running drivers sorted by ascending cumulative time (Python's sort is
stable, as `insertionSort` is).  Drivers are identified by their index in
the drivers list, matching object identity. -/
def finSorted (ds : List DriverSt) : List (ℕ × DriverSt) :=
  (ds.enum.filter fun p => p.2.alive).insertionSort
    fun a b => a.2.cumulativeLapTime ≤ b.2.cumulativeLapTime

/-- The `dnfs` list of `Run.run` (`src/run.py` lines 149-153): retired
drivers sorted by descending `dnfSortKey` (`reverse=True`, stable). -/
def dnfSorted (ds : List DriverSt) : List (ℕ × DriverSt) :=
  (ds.enum.filter fun p => !p.2.alive).insertionSort
    fun a b => dnfSortKey b.2 ≤ dnfSortKey a.2

/-- The final classification order of `Run.run` (`src/run.py` lines
144-160): finishers first, then the retirees. -/
def finalRanking (ds : List DriverSt) : List (ℕ × DriverSt) :=
  finSorted ds ++ dnfSorted ds

/-- Number of running drivers at the end of the race. -/
def aliveCount (ds : List DriverSt) : ℕ :=
  (ds.filter fun d => d.alive).length

/-- Indices of the drivers in final-classification order. -/
def rankedIdx (ds : List DriverSt) : List ℕ :=
  (finalRanking ds).map Prod.fst

/-- The final position the classification assigns to the driver at index
`i` of the drivers list: enumeration rank inside `finalRanking`
(finishers get `1 … F`, retirees `F+1 … N`). -/
def finalPos (ds : List DriverSt) (i : ℕ) : ℕ :=
  listIdx i (rankedIdx ds) + 1

/-- One row of the `outcomes` table. -/
structure Outcome where
  driverId : ℕ
  driverName : String
  finalPosition : ℕ
  cumulativeTime : ℚ
  deriving DecidableEq

/-- The `outcomes` table built at the end of `Run.run` (`src/run.py`
lines 162-171): one row per driver, in drivers-list order, with the
position assigned by the final classification. -/
def finalOutcomes (ds : List DriverSt) : List Outcome :=
  ds.enum.map fun p =>
    { driverId := p.2.driverId, driverName := p.2.name,
      finalPosition := finalPos ds p.1,
      cumulativeTime := p.2.cumulativeLapTime }

/-- `Run.run` (`src/run.py`): retirement/safety-car initialization,
starting-grid time, the lap loop over laps `1 … number_of_laps`, and the
final classification.  The initial `safety_car_laps` comes from the
constructor (`sc_dict` lookup in test mode, empty otherwise). -/
def run (cfg : RaceCfg) (orc : DnfOracle) (ds0 : List DriverSt) (rng : List ℚ) :
    SimSt × List Outcome :=
  let sc0 := if cfg.testMode then cfg.scTable else []
  let ir := initRetirementsAndSafetyCar cfg orc ds0 sc0
  let ds2 := add_starting_grid_time cfg.startingGrid ir.1
  let sEnd := statesUpTo cfg
    { drivers := ds2, safetyCarLaps := ir.2, rng := rng, summary := [] }
    cfg.numberOfLaps
  (sEnd, finalOutcomes sEnd.drivers)

/-! ### Starting-grid construction (`Run._build_starting_grid`) -/

/-- One row of the `qualifyings` table (the columns the grid uses). -/
structure QualRow where
  raceId : ℕ
  driverId : ℕ
  position : ℕ
  deriving DecidableEq

/-- One row of the `starterfields` table (the columns the grid uses). -/
structure SfRow where
  raceId : ℕ
  driverId : ℕ
  deriving DecidableEq

/-- One row of the `drivers` table (the columns the grid uses). -/
structure DriverRow where
  id : ℕ
  name : String
  deriving DecidableEq

/-- The qualifying rows of this race sorted by ascending position
(`sort_values("position")`, stable). -/
def qualPart (raceId : ℕ) (quals : List QualRow) : List QualRow :=
  (quals.filter fun q => q.raceId = raceId).insertionSort
    fun a b => a.position ≤ b.position

/-- `int(qual_grid["position"].max())`, `0` when empty. -/
def qualMaxPos (raceId : ℕ) (quals : List QualRow) : ℕ :=
  ((qualPart raceId quals).map fun q => q.position).foldr max 0

/-- The starter-field entrants of this race that have no qualifying row
(`entered - set(qual_grid["driver_id"])`). -/
def missingIds (raceId : ℕ) (quals : List QualRow) (sf : List SfRow) : List ℕ :=
  (((sf.filter fun r => r.raceId = raceId).map fun r => r.driverId).dedup).filter
    fun i => i ∉ (qualPart raceId quals).map fun q => q.driverId

/-- The drivers-table rows of the missing entrants, sorted alphabetically
by name (`sort_values("name")`). -/
def missingSorted (raceId : ℕ) (quals : List QualRow) (sf : List SfRow)
    (drivers : List DriverRow) : List DriverRow :=
  (drivers.filter fun d => d.id ∈ missingIds raceId quals sf).insertionSort
    fun a b => a.name ≤ b.name

/-- `Run._build_starting_grid` (`src/run.py` lines 191-231): the
qualifying order, then the missing starter-field entrants appended with
positions `max_pos + 1, max_pos + 2, …`. -/
def buildStartingGrid (raceId : ℕ) (quals : List QualRow) (sf : List SfRow)
    (drivers : List DriverRow) : List (ℕ × ℕ) :=
  ((qualPart raceId quals).map fun q => (q.driverId, q.position))
    ++ (missingSorted raceId quals sf drivers).enum.map
        fun p => (p.2.id, qualMaxPos raceId quals + p.1 + 1)

/-! ### Concrete instances used by witnesses and counterexamples -/

/-- A driver state with neutral values, as `Driver.__init__` produces it
for a driver with best qualifying time 100, no strategy entries and a
constant-zero fitted model. -/
def baseDriver : DriverSt :=
  ⟨1, "Driver One", "TeamA", none, 100, 0, 0, 100, 1, fun _ => none, "A3", 0, none, true,
    fun _ _ _ => 0, 0⟩

/-- A one-stop strategy entry scheduled for lap 20 with pit window
`[10, 15]`. -/
def entryW : StopEntry := ⟨"A2", 20, 10, 15, 3⟩

/-- A driver whose strategy holds `entryW` as its first stop. -/
def driverW : DriverSt :=
  { baseDriver with stops := fun k => if k = 1 then some entryW else none }

/-- A configuration whose pit calibration succeeds with baseline 5 for
every team. -/
def cfgCalib : RaceCfg :=
  ⟨50, true, [], fun _ => none, [], fun _ => some 5⟩

/-- A configuration whose pit calibration fails (no historical data). -/
def cfgNoCalib : RaceCfg :=
  ⟨50, true, [], fun _ => none, [], fun _ => none⟩

/-- Two retired drivers: ids 1 and 2, DNF laps 0 and 5 (the test-mode
DNF table of `src/run.py` contains the lap-0 entry
`"Pascal Wehrlein": 0`, so a retiree with `earliest_dnf_lap = 0` is
reachable). -/
def deadAtZero : DriverSt :=
  { baseDriver with alive := false, earliestDnfLap := some 0 }

def deadAtFive : DriverSt :=
  { baseDriver with driverId := 2, name := "Driver Two", alive := false,
                    earliestDnfLap := some 5 }

def deadAtNine : DriverSt :=
  { baseDriver with driverId := 3, name := "Driver Three", alive := false,
                    earliestDnfLap := some 9 }

/-- A driver whose test-table DNF lap is 0, as `"Pascal Wehrlein": 0` in
`src/run.py` line 341. -/
def driverDnfZero : DriverSt :=
  { baseDriver with earliestDnfLap := some 0 }

/-- A still-running driver scheduled to retire at lap 2. -/
def driverDnfTwo : DriverSt :=
  { baseDriver with earliestDnfLap := some 2 }

/-- A loop state holding only `driverDnfTwo`. -/
def s0W : SimSt := ⟨[driverDnfTwo], [], [], []⟩

/-- The `update_status` calls `src/New/run.py` makes for one driver over
laps `1 … m` (the rest of the New lap body never touches `alive`). -/
def iterate_statusNew (d : DriverSt) : ℕ → DriverSt
  | 0 => d
  | m + 1 => update_statusNew (iterate_statusNew d m) (m + 1)

/-- An oracle whose draws never fire. -/
def orcNone : DnfOracle := ⟨fun _ => none, fun _ => false⟩

/-- A one-lap test-mode race whose pit calibration succeeds with
baseline 20. -/
def cfgC4 : RaceCfg := ⟨1, true, [], fun _ => none, [], fun _ => some 20⟩

/-- A driver whose strategy schedules a stop exactly at lap 1. -/
def driverC4 : DriverSt :=
  { baseDriver with stops := fun k => if k = 1 then some ⟨"A2", 1, 0, 0, 5⟩ else none }

/-- A small qualifying table: race 1 has positions 2 and 1. -/
def qualsW : List QualRow := [⟨1, 10, 2⟩, ⟨1, 11, 1⟩, ⟨2, 12, 1⟩]

/-- A starter field for race 1 with two entrants missing from qualifying. -/
def sfW : List SfRow := [⟨1, 10⟩, ⟨1, 11⟩, ⟨1, 20⟩, ⟨1, 21⟩]

/-- The drivers table naming all four entrants. -/
def driversW : List DriverRow := [⟨10, "Alpha"⟩, ⟨11, "Beta"⟩, ⟨20, "Zeta"⟩, ⟨21, "Eta"⟩]

/-- A driver state with the cumulative time reset to zero; two states
with equal `zeroCum` agree on everything but the cumulative time. -/
def zeroCum (d : DriverSt) : DriverSt := { d with cumulativeLapTime := 0 }

/-- A driver state with cumulative time and position reset; two states
with equal `scrub` agree on everything except those two fields, the only
ones the lap loop lets depend on the starting-grid time. -/
def scrub (d : DriverSt) : DriverSt := { d with cumulativeLapTime := 0, position := none }

/-- Overwrite the cumulative time and position of a driver state. -/
def setCumPos (d : DriverSt) (c : ℚ) (p : Option ℕ) : DriverSt :=
  { d with cumulativeLapTime := c, position := p }

/-- The time `_add_starting_grid_time` adds for a driver id: a quarter
second per grid position of its first grid entry, zero when absent. -/
def gridBonus (grid : List (ℕ × ℕ)) (i : ℕ) : ℚ :=
  match grid.find? (fun p => p.1 = i) with
  | some p => p.2 * (1 / 4)
  | none => 0

/-- Pointwise relation between the driver lists of two runs that differ
only in each driver's accumulated time (by `δ` of the index) and in the
position field. -/
def RelShift (δ : ℕ → ℚ) (ds1 ds2 : List DriverSt) : Prop :=
  ds1.length = ds2.length ∧
    ∀ j d1 d2, ds1[j]? = some d1 → ds2[j]? = some d2 →
      scrub d1 = scrub d2 ∧ d2.cumulativeLapTime = d1.cumulativeLapTime + δ j

/-! ### Basic lemmas about `listIdx` -/

theorem listIdx_lt_length {i : ℕ} {l : List ℕ} (h : i ∈ l) : listIdx i l < l.length := by
  induction l with
  | nil => cases h
  | cons x xs ih =>
    by_cases hx : x = i
    · simp [listIdx, hx]
    · have hm : i ∈ xs := by
        rcases List.mem_cons.mp h with h1 | h1
        · exact absurd h1.symm hx
        · exact h1
      simp only [listIdx, if_neg hx, List.length_cons]
      exact Nat.succ_lt_succ (ih hm)

theorem listIdx_get {i : ℕ} {l : List ℕ} (h : i ∈ l) :
    l.get ⟨listIdx i l, listIdx_lt_length h⟩ = i := by
  induction l with
  | nil => cases h
  | cons x xs ih =>
    by_cases hx : x = i
    · simp [listIdx, hx]
    · have hm : i ∈ xs := by
        rcases List.mem_cons.mp h with h1 | h1
        · exact absurd h1.symm hx
        · exact h1
      have := ih hm
      simp only [listIdx, if_neg hx]
      simpa using this

theorem listIdx_append_left {i : ℕ} {l₁ : List ℕ} (l₂ : List ℕ) (h : i ∈ l₁) :
    listIdx i (l₁ ++ l₂) = listIdx i l₁ := by
  induction l₁ with
  | nil => cases h
  | cons x xs ih =>
    by_cases hx : x = i
    · simp [listIdx, hx]
    · have hm : i ∈ xs := by
        rcases List.mem_cons.mp h with h1 | h1
        · exact absurd h1.symm hx
        · exact h1
      simp [listIdx, if_neg hx, ih hm]

theorem listIdx_append_right {i : ℕ} {l₁ : List ℕ} (l₂ : List ℕ) (h : i ∉ l₁) :
    listIdx i (l₁ ++ l₂) = l₁.length + listIdx i l₂ := by
  induction l₁ with
  | nil => simp [listIdx]
  | cons x xs ih =>
    have hx : x ≠ i := fun he => h (by simp [he])
    have hm : i ∉ xs := fun hi => h (List.mem_cons_of_mem _ hi)
    have step : listIdx i ((x :: xs) ++ l₂) = listIdx i (xs ++ l₂) + 1 := by
      simp only [List.cons_append, listIdx, if_neg hx]
      rfl
    rw [step, ih hm, List.length_cons]
    omega

theorem listIdx_getElem_self {l : List ℕ} (hnd : l.Nodup) (j : Fin l.length) :
    listIdx (l.get j) l = j := by
  induction l with
  | nil => exact absurd j.isLt (by simp)
  | cons x xs ih =>
    rcases j with ⟨jv, hj⟩
    cases jv with
    | zero => simp [listIdx]
    | succ k =>
      have hk : k < xs.length := Nat.lt_of_succ_lt_succ hj
      have hmem : xs.get ⟨k, hk⟩ ∈ xs := List.get_mem xs k hk
      have hx : x ≠ xs.get ⟨k, hk⟩ := by
        intro he
        exact (List.nodup_cons.mp hnd).1 (he ▸ hmem)
      have := ih (List.nodup_cons.mp hnd).2 ⟨k, hk⟩
      simp only [List.get_cons_succ, listIdx, if_neg hx]
      simpa using this

theorem map_listIdx_self {l : List ℕ} (hnd : l.Nodup) :
    l.map (fun a => listIdx a l) = List.range l.length := by
  apply List.ext_get
  · simp
  · intro j h1 h2
    have hj : j < l.length := by simpa using h1
    have := listIdx_getElem_self hnd ⟨j, hj⟩
    simp only [List.get_map]
    simpa [List.get_range] using this

/-! ### The final classification is a permutation of `1 … N` -/

theorem rankedIdx_perm (ds : List DriverSt) :
    List.Perm (rankedIdx ds) (List.range ds.length) := by
  unfold rankedIdx finalRanking
  simp only [List.map_append]
  have hfin :
      List.Perm
        (((ds.enum.filter fun p => p.2.alive).insertionSort
          fun a b => a.2.cumulativeLapTime ≤ b.2.cumulativeLapTime).map Prod.fst)
        ((ds.enum.filter fun p => p.2.alive).map Prod.fst) :=
    (List.perm_insertionSort _ _).map _
  have hdnf :
      List.Perm
        (((ds.enum.filter fun p => !p.2.alive).insertionSort
          fun a b => dnfSortKey b.2 ≤ dnfSortKey a.2).map Prod.fst)
        ((ds.enum.filter fun p => !p.2.alive).map Prod.fst) :=
    (List.perm_insertionSort _ _).map _
  have hsplit :
      List.Perm
        ((ds.enum.filter fun p => p.2.alive) ++ (ds.enum.filter fun p => !p.2.alive))
        ds.enum :=
    List.filter_append_perm _ _
  have h1 := hfin.append hdnf
  have h2 :
      ((ds.enum.filter fun p => p.2.alive).map Prod.fst
          ++ (ds.enum.filter fun p => !p.2.alive).map Prod.fst)
        = ((ds.enum.filter fun p => p.2.alive)
          ++ (ds.enum.filter fun p => !p.2.alive)).map Prod.fst :=
    (List.map_append _ _ _).symm
  have h3 := hsplit.map Prod.fst
  have h4 := List.enum_map_fst ds
  exact h1.trans ((h2 ▸ h3).trans (h4 ▸ List.Perm.refl _))

theorem rankedIdx_nodup (ds : List DriverSt) : (rankedIdx ds).Nodup :=
  (rankedIdx_perm ds).nodup_iff.mpr (List.nodup_range _)

theorem rankedIdx_length (ds : List DriverSt) : (rankedIdx ds).length = ds.length :=
  (rankedIdx_perm ds).length_eq.trans (List.length_range _)

theorem finalOutcomes_positions_perm (ds : List DriverSt) :
    List.Perm ((finalOutcomes ds).map (·.finalPosition)) (List.range' 1 ds.length) := by
  have h1 : (finalOutcomes ds).map (·.finalPosition)
      = (List.range ds.length).map fun i => finalPos ds i := by
    unfold finalOutcomes
    rw [List.map_map, ← List.enum_map_fst ds, List.map_map]
    rfl
  have hperm := rankedIdx_perm ds
  have hnd := rankedIdx_nodup ds
  have h2 : List.Perm ((List.range ds.length).map fun i => finalPos ds i)
      ((rankedIdx ds).map fun i => finalPos ds i) :=
    (hperm.symm.map _)
  have h3 : (rankedIdx ds).map (fun i => finalPos ds i) = List.range' 1 ds.length := by
    unfold finalPos
    have hcomp : (rankedIdx ds).map (fun i => listIdx i (rankedIdx ds) + 1)
        = ((rankedIdx ds).map fun a => listIdx a (rankedIdx ds)).map (· + 1) := by
      rw [List.map_map]; rfl
    rw [hcomp, map_listIdx_self hnd, rankedIdx_length,
      List.range'_eq_map_range]
    apply List.map_congr_left
    intro a _
    omega
  rw [h1]
  exact h2.trans (h3 ▸ List.Perm.refl _)

/-! ### The simulation preserves the number of drivers -/

theorem mapRng_length (f : DriverSt → List ℚ → DriverSt × List ℚ)
    (ds : List DriverSt) (rng : List ℚ) : (mapRng f ds rng).1.length = ds.length := by
  induction ds generalizing rng with
  | nil => rfl
  | cons d rest ih => simp [mapRng, ih]

theorem positionsUpdate_length (ds : List DriverSt) :
    (positionsUpdate ds).length = ds.length := by
  simp [positionsUpdate]

theorem lapBody_drivers_length (cfg : RaceCfg) (lap : ℕ) (s : SimSt) :
    (lapBody cfg lap s).drivers.length = s.drivers.length := by
  simp [lapBody, positionsUpdate_length, mapRng_length]

theorem statesUpTo_drivers_length (cfg : RaceCfg) (s0 : SimSt) (k : ℕ) :
    (statesUpTo cfg s0 k).drivers.length = s0.drivers.length := by
  induction k with
  | zero => rfl
  | succ k ih => rw [statesUpTo, lapBody_drivers_length, ih]

theorem initRetirementsAndSafetyCar_length (cfg : RaceCfg) (orc : DnfOracle)
    (ds : List DriverSt) (sc : List ℕ) :
    (initRetirementsAndSafetyCar cfg orc ds sc).1.length = ds.length := by
  unfold initRetirementsAndSafetyCar
  by_cases ht : cfg.testMode
  · simp [ht]
  · rw [if_neg ht]
    have gen : ∀ (l : List (ℕ × DriverSt)) (acc : List DriverSt × List ℕ),
        (l.foldl (initStep cfg orc) acc).1.length = acc.1.length + l.length := by
      intro l
      induction l with
      | nil => intro acc; simp
      | cons p rest ih =>
        intro acc
        rw [List.foldl_cons, ih]
        simp [initStep]
        omega
    rw [gen]
    simp

theorem updateFirst_length (ds : List DriverSt) (i : ℕ) (f : DriverSt → DriverSt) :
    (updateFirst ds i f).length = ds.length := by
  induction ds with
  | nil => rfl
  | cons d rest ih =>
    unfold updateFirst
    by_cases h : d.driverId = i <;> simp [h, ih]

theorem add_starting_grid_time_length (grid : List (ℕ × ℕ)) (ds : List DriverSt) :
    (add_starting_grid_time grid ds).length = ds.length := by
  induction grid generalizing ds with
  | nil => rfl
  | cons p rest ih =>
    unfold add_starting_grid_time at *
    simp only [List.foldl_cons]
    rw [ih, updateFirst_length]

theorem run_outcomes_length (cfg : RaceCfg) (orc : DnfOracle) (ds0 : List DriverSt)
    (rng : List ℚ) : (run cfg orc ds0 rng).2.length = ds0.length := by
  unfold run finalOutcomes
  simp only [List.length_map, List.enum_length]
  rw [statesUpTo_drivers_length]
  simp only [add_starting_grid_time_length]
  exact initRetirementsAndSafetyCar_length cfg orc ds0 _

/-- C1: the multiset of `final_position` values in the outcomes table of
a completed simulation of `N` drivers is exactly `{1, …, N}` (positions
being computed by the final classification, which `run` applies only
after the lap loop has finished). -/
theorem final_positions_are_permutation (cfg : RaceCfg) (orc : DnfOracle)
    (ds0 : List DriverSt) (rng : List ℚ) :
    List.Perm ((run cfg orc ds0 rng).2.map (·.finalPosition))
      (List.range' 1 ds0.length) := by
  have h := finalOutcomes_positions_perm
    (statesUpTo cfg
      { drivers := add_starting_grid_time cfg.startingGrid
          (initRetirementsAndSafetyCar cfg orc ds0
            (if cfg.testMode then cfg.scTable else [])).1,
        safetyCarLaps := (initRetirementsAndSafetyCar cfg orc ds0
          (if cfg.testMode then cfg.scTable else [])).2,
        rng := rng, summary := [] }
      cfg.numberOfLaps).drivers
  have hlen :
      (statesUpTo cfg
        { drivers := add_starting_grid_time cfg.startingGrid
            (initRetirementsAndSafetyCar cfg orc ds0
              (if cfg.testMode then cfg.scTable else [])).1,
          safetyCarLaps := (initRetirementsAndSafetyCar cfg orc ds0
            (if cfg.testMode then cfg.scTable else [])).2,
          rng := rng, summary := [] }
        cfg.numberOfLaps).drivers.length = ds0.length := by
    rw [statesUpTo_drivers_length]
    simp only [add_starting_grid_time_length]
    exact initRetirementsAndSafetyCar_length cfg orc ds0 _
  rw [hlen] at h
  exact h

/-! ### Safety-car window derivation (C5) -/

theorem foldl_insertAbsent_toFinset :
    ∀ (l acc : List ℕ),
      (l.foldl (fun acc lap => if lap ∈ acc then acc else acc ++ [lap]) acc).toFinset
        = acc.toFinset ∪ l.toFinset := by
  intro l
  induction l with
  | nil => intro acc; simp
  | cons x xs ih =>
    intro acc
    rw [List.foldl_cons]
    by_cases hx : x ∈ acc
    · rw [if_pos hx, ih]
      ext a
      simp only [Finset.mem_union, List.mem_toFinset, List.mem_cons]
      constructor
      · rintro (h | h)
        · exact Or.inl h
        · exact Or.inr (Or.inr h)
      · rintro (h | h | h)
        · exact Or.inl h
        · exact Or.inl (h ▸ hx)
        · exact Or.inr h
    · rw [if_neg hx, ih]
      ext a
      simp only [Finset.mem_union, List.mem_toFinset, List.mem_append,
        List.mem_cons, List.mem_singleton]
      tauto

theorem foldl_insertAbsent_of_subset :
    ∀ (l acc : List ℕ), (∀ x ∈ l, x ∈ acc) →
      l.foldl (fun acc lap => if lap ∈ acc then acc else acc ++ [lap]) acc = acc := by
  intro l
  induction l with
  | nil => intro acc _; rfl
  | cons x xs ih =>
    intro acc h
    rw [List.foldl_cons, if_pos (h x (List.mem_cons_self x xs))]
    exact ih acc fun y hy => h y (List.mem_cons_of_mem x hy)

theorem addSafetyCarLaps_toFinset (dnf n : ℕ) (sc : List ℕ) :
    (addSafetyCarLaps dnf n sc).toFinset
      = sc.toFinset ∪ Finset.Icc dnf (min (dnf + 4) n) := by
  unfold addSafetyCarLaps
  rw [foldl_insertAbsent_toFinset]
  congr 1
  ext a
  simp only [List.mem_toFinset, List.mem_range'_1, Finset.mem_Icc]
  omega

/-- C5: the safety-car block adds exactly the laps from the DNF lap
through `DNF lap + 4` clipped at the final lap, never adds a lap beyond
the final lap that was not already present, leaves the list unchanged
when every window lap is already flagged, and is invoked by the
initialization step exactly for a driver with a truthy DNF lap whose
safety-car draw fired; a DNF at lap 10 in a 12-lap race yields exactly
`[10, 11, 12]`. -/
theorem safety_car_window :
    (∀ dnf n : ℕ, ∀ sc : List ℕ,
        (addSafetyCarLaps dnf n sc).toFinset
          = sc.toFinset ∪ Finset.Icc dnf (min (dnf + 4) n))
    ∧ (∀ dnf n : ℕ, ∀ sc : List ℕ, ∀ l ∈ addSafetyCarLaps dnf n sc,
        l ∈ sc ∨ (dnf ≤ l ∧ l ≤ n))
    ∧ (∀ dnf n : ℕ, ∀ sc : List ℕ,
        (∀ l, dnf ≤ l → l ≤ min (dnf + 4) n → l ∈ sc) →
          addSafetyCarLaps dnf n sc = sc)
    ∧ (∀ cfg orc acc p k, orc.dnfLap p.1 = some k → k ≠ 0 → orc.scFire p.1 = true →
        (initStep cfg orc acc p).2 = addSafetyCarLaps k cfg.numberOfLaps acc.2)
    ∧ addSafetyCarLaps 10 12 [] = [10, 11, 12] := by
  refine ⟨addSafetyCarLaps_toFinset, ?_, ?_, ?_, by decide⟩
  · intro dnf n sc l hl
    have : l ∈ (addSafetyCarLaps dnf n sc).toFinset := List.mem_toFinset.mpr hl
    rw [addSafetyCarLaps_toFinset] at this
    rcases Finset.mem_union.mp this with h | h
    · exact Or.inl (List.mem_toFinset.mp h)
    · rcases Finset.mem_Icc.mp h with ⟨h1, h2⟩
      exact Or.inr ⟨h1, le_trans h2 (min_le_right _ _)⟩
  · intro dnf n sc h
    unfold addSafetyCarLaps
    apply foldl_insertAbsent_of_subset
    intro x hx
    rcases List.mem_range'_1.mp hx with ⟨h1, h2⟩
    exact h x h1 (by omega)
  · intro cfg orc acc p k hk hk0 hf
    simp [initStep, hk, hk0, hf]

/-- Witness for C5: concrete evaluations of the window equalities. -/
theorem safety_car_window_witness :
    (addSafetyCarLaps 1 3 [1, 2, 3, 0] = [1, 2, 3, 0])
    ∧ (addSafetyCarLaps 10 12 []).toFinset = [].toFinset ∪ Finset.Icc 10 (min 14 12) :=
  ⟨safety_car_window.2.2.1 1 3 [1, 2, 3, 0] (by decide),
   safety_car_window.1 10 12 []⟩

/-! ### Fuel and tire update (C6) -/

theorem fuel_formula_in_range {lap n : ℕ} (h1 : 1 ≤ lap) (h2 : lap ≤ n) :
    (0 : ℚ) ≤ 100 - (100 / (n : ℚ)) * lap := by
  have hn : (0 : ℚ) < n := by
    have : (1 : ℚ) ≤ n := by exact_mod_cast le_trans h1 h2
    linarith
  have hlap : (lap : ℚ) ≤ n := by exact_mod_cast h2
  have : (100 / (n : ℚ)) * lap ≤ (100 / (n : ℚ)) * n := by
    apply mul_le_mul_of_nonneg_left hlap
    positivity
  have hx : (100 / (n : ℚ)) * n = 100 := by
    field_simp
  linarith

/-- C6: both revisions of `update_info` increment `tire_age` by one and
produce `fuel_level = max(0, 100 - (100/total_laps) * lap)` for every lap
`1 ≤ lap ≤ total_laps` — `src/New/driver.py` sets that formula directly
(its value is never negative in range, so the missing clamp is
immaterial), while `src/driver.py` reaches it by decrementing the
previous lap's value; the result always lies in `[0, 100]` and is
exactly `0` at the final lap. -/
theorem update_info_fuel_model :
    (∀ d : DriverSt, ∀ lap n : ℕ, 1 ≤ lap → lap ≤ n →
      (update_infoNew d lap n).tireAge = d.tireAge + 1
      ∧ (update_infoNew d lap n).fuelc = max 0 (100 - (100 / (n : ℚ)) * lap)
      ∧ 0 ≤ (update_infoNew d lap n).fuelc ∧ (update_infoNew d lap n).fuelc ≤ 100
      ∧ (lap = n → (update_infoNew d lap n).fuelc = 0))
    ∧ (∀ d : DriverSt, ∀ lap n : ℕ, 1 ≤ lap → lap ≤ n →
      d.fuelc = max 0 (100 - (100 / (n : ℚ)) * ((lap : ℚ) - 1)) →
      (update_info d lap n).tireAge = d.tireAge + 1
      ∧ (update_info d lap n).fuelc = max 0 (100 - (100 / (n : ℚ)) * lap)
      ∧ 0 ≤ (update_info d lap n).fuelc ∧ (update_info d lap n).fuelc ≤ 100
      ∧ (lap = n → (update_info d lap n).fuelc = 0)) := by
  have hn0 : ∀ {lap n : ℕ}, 1 ≤ lap → lap ≤ n → (0 : ℚ) < n := by
    intro lap n h1 h2
    have : (1 : ℚ) ≤ n := by exact_mod_cast le_trans h1 h2
    linarith
  have hfinal : ∀ {n : ℕ}, (0 : ℚ) < n → 100 - (100 / (n : ℚ)) * n = 0 := by
    intro n hn
    have hne : (n : ℚ) ≠ 0 := ne_of_gt hn
    field_simp
  have hub : ∀ {lap n : ℕ}, 1 ≤ lap → lap ≤ n →
      max 0 (100 - (100 / (n : ℚ)) * lap) ≤ 100 := by
    intro lap n h1 h2
    have hn := hn0 h1 h2
    have : (0 : ℚ) ≤ (100 / (n : ℚ)) * lap := by positivity
    rw [max_le_iff]
    constructor <;> linarith
  constructor
  · intro d lap n h1 h2
    have hpos := fuel_formula_in_range h1 h2
    have heq : (update_infoNew d lap n).fuelc = 100 - (100 / (n : ℚ)) * lap := rfl
    have hmax : max 0 (100 - (100 / (n : ℚ)) * lap) = 100 - (100 / (n : ℚ)) * lap :=
      max_eq_right hpos
    refine ⟨rfl, by rw [heq, hmax], by rw [heq]; exact hpos, ?_, ?_⟩
    · rw [heq, ← hmax]; exact hub h1 h2
    · intro he
      subst he
      rw [heq, hfinal (hn0 h1 h2)]
  · intro d lap n h1 h2 hprev
    have hn := hn0 h1 h2
    have hq : (0 : ℚ) ≤ 100 / (n : ℚ) := by positivity
    have hprevpos : (0 : ℚ) ≤ 100 - (100 / (n : ℚ)) * ((lap : ℚ) - 1) := by
      have hlap : (lap : ℚ) - 1 ≤ n := by
        have : (lap : ℚ) ≤ n := by exact_mod_cast h2
        linarith
      have h0 : (0 : ℚ) ≤ (lap : ℚ) - 1 := by
        have : (1 : ℚ) ≤ lap := by exact_mod_cast h1
        linarith
      have : (100 / (n : ℚ)) * ((lap : ℚ) - 1) ≤ (100 / (n : ℚ)) * n :=
        mul_le_mul_of_nonneg_left hlap hq
      have hx : (100 / (n : ℚ)) * n = 100 := by
        have hne : (n : ℚ) ≠ 0 := ne_of_gt hn
        field_simp
      linarith
    have hprev2 : d.fuelc = 100 - (100 / (n : ℚ)) * ((lap : ℚ) - 1) := by
      rw [hprev, max_eq_right hprevpos]
    have heq : (update_info d lap n).fuelc = max (d.fuelc - 100 / (n : ℚ)) 0 := rfl
    have harith : d.fuelc - 100 / (n : ℚ) = 100 - (100 / (n : ℚ)) * lap := by
      rw [hprev2]; ring
    have hcomm : (update_info d lap n).fuelc = max 0 (100 - (100 / (n : ℚ)) * lap) := by
      rw [heq, harith, max_comm]
    refine ⟨rfl, hcomm, ?_, ?_, ?_⟩
    · rw [hcomm]; exact le_max_left _ _
    · rw [hcomm]; exact hub h1 h2
    · intro he
      subst he
      rw [hcomm, hfinal hn]
      simp

/-- Witness for C6: both variants evaluated at lap 2 of a 4-lap race,
and at the final lap. -/
theorem update_info_fuel_model_witness :
    ((update_infoNew baseDriver 2 4).tireAge = baseDriver.tireAge + 1
      ∧ (update_infoNew baseDriver 2 4).fuelc = max 0 (100 - (100 / (4 : ℚ)) * 2)
      ∧ 0 ≤ (update_infoNew baseDriver 2 4).fuelc
      ∧ (update_infoNew baseDriver 2 4).fuelc ≤ 100
      ∧ (2 = 4 → (update_infoNew baseDriver 2 4).fuelc = 0))
    ∧ ((update_info baseDriver 1 4).tireAge = baseDriver.tireAge + 1
      ∧ (update_info baseDriver 1 4).fuelc = max 0 (100 - (100 / (4 : ℚ)) * 1)
      ∧ 0 ≤ (update_info baseDriver 1 4).fuelc
      ∧ (update_info baseDriver 1 4).fuelc ≤ 100
      ∧ (1 = 4 → (update_info baseDriver 1 4).fuelc = 0)) :=
  ⟨update_info_fuel_model.1 baseDriver 2 4 (by decide) (by decide),
   update_info_fuel_model.2 baseDriver 1 4 (by decide) (by decide)
     (by show (100 : ℚ) = max 0 (100 - (100 / (4 : ℚ)) * ((1 : ℚ) - 1)); norm_num)⟩

/-! ### Pit-stop error handling (C8) -/

/-- C8: `_pit_stop` never aborts the race loop — in both revisions, a
driver whose `next_pit_stop` index has no strategy entry gets exactly
`0.0` added time with state and stream unchanged, and a failed
pit-duration calibration (the caught `ValueError`) is resolved the same
way. -/
theorem pit_stop_error_handling :
    (∀ cfg : RaceCfg, ∀ d : DriverSt, ∀ lap : ℕ, ∀ rng : List ℚ,
        d.stops d.nextPitStop = none → pit_stop cfg d lap rng = (0, d, rng))
    ∧ (∀ cfg : RaceCfg, ∀ sc : List ℕ, ∀ d : DriverSt, ∀ lap : ℕ, ∀ rng : List ℚ,
        d.stops d.nextPitStop = none → pit_stopNew cfg sc d lap rng = (0, d, rng))
    ∧ (∀ cfg : RaceCfg, ∀ team : String, ∀ rng : List ℚ,
        cfg.pitCalib team = none →
          calcPitDuration cfg team rng = Except.error "no historical pit-stop data")
    ∧ (∀ cfg : RaceCfg, ∀ d : DriverSt, ∀ lap : ℕ, ∀ rng : List ℚ,
        cfg.pitCalib d.team = none → pit_stop cfg d lap rng = (0, d, rng))
    ∧ (∀ cfg : RaceCfg, ∀ sc : List ℕ, ∀ d : DriverSt, ∀ lap : ℕ, ∀ rng : List ℚ,
        cfg.pitCalib d.team = none → pit_stopNew cfg sc d lap rng = (0, d, rng)) := by
  refine ⟨?_, ?_, ?_, ?_, ?_⟩
  · intro cfg d lap rng h
    unfold pit_stop
    rw [h]
  · intro cfg sc d lap rng h
    unfold pit_stopNew
    rw [h]
  · intro cfg team rng h
    unfold calcPitDuration
    rw [h]
  · intro cfg d lap rng h
    unfold pit_stop
    cases hs : d.stops d.nextPitStop with
    | none => rfl
    | some entry =>
      simp only
      split
      · unfold calcPitDuration
        rw [h]
      · rfl
  · intro cfg sc d lap rng h
    unfold pit_stopNew
    cases hs : d.stops d.nextPitStop with
    | none => rfl
    | some entry =>
      simp only
      split
      · unfold calcPitDuration
        rw [h]
      · rfl

/-- Witness for C8: a strategy-less driver and a failed calibration both
produce zero added time and unchanged state. -/
theorem pit_stop_error_handling_witness :
    pit_stop cfgCalib baseDriver 7 [3] = (0, baseDriver, [3])
    ∧ pit_stopNew cfgNoCalib [7] driverW 12 [3] = (0, driverW, [3]) :=
  ⟨pit_stop_error_handling.1 cfgCalib baseDriver 7 [3] rfl,
   pit_stop_error_handling.2.2.2.2 cfgNoCalib [7] driverW 12 [3] rfl⟩

/-! ### Pit-stop timing condition (C3) -/

/-- Counterexample to C3 as stated: in `src/run.py`, lap 12 lies in the
half-open window `range(10, 15)` of `entryW`, there is no active safety
car and the lap is not the scheduled pit lap 20, yet `_pit_stop` takes
the stop (`next_pit_stop` increments and the sampled duration is
charged), so the claimed "if and only if" fails on this revision. -/
theorem pit_stop_condition_counterexample :
    driverW.stops driverW.nextPitStop = some entryW
    ∧ cfgCalib.pitCalib driverW.team = some 5
    ∧ ¬ specPitCondition entryW 12 []
    ∧ (pit_stop cfgCalib driverW 12 [0]).2.1.nextPitStop = driverW.nextPitStop + 1
    ∧ (pit_stop cfgCalib driverW 12 [0]).1 = 5 := by
  refine ⟨rfl, rfl, by decide, by decide, ?_⟩
  norm_num [pit_stop, driverW, baseDriver, entryW, cfgCalib, calcPitDuration]

/-- C3 amended: with a strategy entry available and a succeeding
calibration, `src/New/run.py` takes a stop exactly under the
specification's condition (scheduled lap, or safety car and inclusive
window), while `src/run.py` takes a stop exactly when the lap is the
scheduled lap or lies in the half-open window `range(interval[0],
interval[1])`, with no safety-car requirement; in both revisions a taken
stop charges exactly one sampled duration, consumes exactly one stream
draw and increments `next_pit_stop` by exactly one, also when several
conditions hold simultaneously. -/
theorem pit_stop_condition (cfg : RaceCfg) (sc : List ℕ) (d : DriverSt) (lap : ℕ)
    (rng : List ℚ) (e : StopEntry) (b : ℚ)
    (hs : d.stops d.nextPitStop = some e) (hc : cfg.pitCalib d.team = some b) :
    (((pit_stopNew cfg sc d lap rng).2.1.nextPitStop = d.nextPitStop + 1)
      ↔ specPitCondition e lap sc)
    ∧ (((pit_stop cfg d lap rng).2.1.nextPitStop = d.nextPitStop + 1)
      ↔ (lap = e.pitStopLap ∨ (e.intervalLo ≤ lap ∧ lap < e.intervalHi)))
    ∧ (specPitCondition e lap sc →
        pit_stopNew cfg sc d lap rng =
          (b + rng.headD 0,
           { d with tireAge := e.tireAge, compound := e.compound,
                    nextPitStop := d.nextPitStop + 1 },
           rng.tail))
    ∧ ((lap = e.pitStopLap ∨ (e.intervalLo ≤ lap ∧ lap < e.intervalHi)) →
        pit_stop cfg d lap rng =
          (b + rng.headD 0,
           { d with tireAge := e.tireAge, compound := e.compound,
                    nextPitStop := d.nextPitStop + 1 },
           rng.tail)) := by
  have hnew : ∀ h : specPitCondition e lap sc,
      pit_stopNew cfg sc d lap rng =
        (b + rng.headD 0,
         { d with tireAge := e.tireAge, compound := e.compound,
                  nextPitStop := d.nextPitStop + 1 },
         rng.tail) := by
    intro h
    simp only [specPitCondition] at h
    unfold pit_stopNew
    rw [hs]
    simp only
    rw [if_pos h]
    unfold calcPitDuration
    rw [hc]
  have hold : ∀ _ : lap = e.pitStopLap ∨ (e.intervalLo ≤ lap ∧ lap < e.intervalHi),
      pit_stop cfg d lap rng =
        (b + rng.headD 0,
         { d with tireAge := e.tireAge, compound := e.compound,
                  nextPitStop := d.nextPitStop + 1 },
         rng.tail) := by
    intro h
    unfold pit_stop
    rw [hs]
    simp only
    rw [if_pos h]
    unfold calcPitDuration
    rw [hc]
  refine ⟨?_, ?_, hnew, hold⟩
  · constructor
    · intro hinc
      by_contra hcond
      have : pit_stopNew cfg sc d lap rng = (0, d, rng) := by
        simp only [specPitCondition] at hcond
        unfold pit_stopNew
        rw [hs]
        simp only
        rw [if_neg hcond]
      rw [this] at hinc
      exact Nat.succ_ne_self d.nextPitStop hinc.symm
    · intro h
      rw [hnew h]
  · constructor
    · intro hinc
      by_contra hcond
      have : pit_stop cfg d lap rng = (0, d, rng) := by
        unfold pit_stop
        rw [hs]
        simp only
        rw [if_neg hcond]
      rw [this] at hinc
      exact Nat.succ_ne_self d.nextPitStop hinc.symm
    · intro h
      rw [hold h]

/-- Witness for C3 amended: the simultaneous case — lap 10 is both under
a safety car and inside the window in the New revision; in the old
revision lap 12 is in the half-open window — each charges one duration
and one increment. -/
theorem pit_stop_condition_witness :
    (((pit_stopNew cfgCalib [10] driverW 10 [2]).2.1.nextPitStop
        = driverW.nextPitStop + 1)
      ↔ specPitCondition entryW 10 [10])
    ∧ (pit_stop cfgCalib driverW 12 [2] =
        (5 + ([ (2 : ℚ) ]).headD 0,
         { driverW with tireAge := entryW.tireAge, compound := entryW.compound,
                        nextPitStop := driverW.nextPitStop + 1 },
         ([ (2 : ℚ) ]).tail)) :=
  ⟨(pit_stop_condition cfgCalib [10] driverW 10 [2] entryW 5 rfl rfl).1,
   (pit_stop_condition cfgCalib [] driverW 12 [2] entryW 5 rfl rfl).2.2.2
     (Or.inr (by decide))⟩

/-! ### Final classification order (C2) -/

theorem mem_finSorted_iff (ds : List DriverSt) (p : ℕ × DriverSt) :
    p ∈ finSorted ds ↔ ds[p.1]? = some p.2 ∧ p.2.alive = true := by
  unfold finSorted
  rw [(List.perm_insertionSort _ _).mem_iff, List.mem_filter]
  rw [List.mem_enum_iff_getElem?]

theorem mem_dnfSorted_iff (ds : List DriverSt) (p : ℕ × DriverSt) :
    p ∈ dnfSorted ds ↔ ds[p.1]? = some p.2 ∧ p.2.alive = false := by
  unfold dnfSorted
  rw [(List.perm_insertionSort _ _).mem_iff, List.mem_filter]
  rw [List.mem_enum_iff_getElem?]
  simp

theorem mem_finIdx_iff (ds : List DriverSt) (i : ℕ) :
    i ∈ (finSorted ds).map Prod.fst ↔
      ∃ d, ds[i]? = some d ∧ d.alive = true := by
  rw [List.mem_map]
  constructor
  · rintro ⟨p, hp, rfl⟩
    exact ⟨p.2, (mem_finSorted_iff ds p).mp hp⟩
  · rintro ⟨d, hd, ha⟩
    exact ⟨(i, d), (mem_finSorted_iff ds (i, d)).mpr ⟨hd, ha⟩, rfl⟩

theorem mem_dnfIdx_iff (ds : List DriverSt) (i : ℕ) :
    i ∈ (dnfSorted ds).map Prod.fst ↔
      ∃ d, ds[i]? = some d ∧ d.alive = false := by
  rw [List.mem_map]
  constructor
  · rintro ⟨p, hp, rfl⟩
    exact ⟨p.2, (mem_dnfSorted_iff ds p).mp hp⟩
  · rintro ⟨d, hd, ha⟩
    exact ⟨(i, d), (mem_dnfSorted_iff ds (i, d)).mpr ⟨hd, ha⟩, rfl⟩

theorem length_filter_enumFrom (q : DriverSt → Bool) (ds : List DriverSt) :
    ∀ n : ℕ, ((List.enumFrom n ds).filter fun p => q p.2).length
      = (ds.filter q).length := by
  induction ds with
  | nil => intro n; rfl
  | cons d rest ih =>
    intro n
    rw [List.enumFrom_cons]
    by_cases hq : q d
    · rw [List.filter_cons_of_pos (by simpa using hq), List.filter_cons_of_pos hq]
      simp [ih]
    · rw [List.filter_cons_of_neg (by simpa using hq), List.filter_cons_of_neg hq]
      exact ih (n + 1)

theorem finSorted_length (ds : List DriverSt) :
    (finSorted ds).length = aliveCount ds := by
  unfold finSorted aliveCount
  rw [List.length_insertionSort]
  exact length_filter_enumFrom (fun d => d.alive) ds 0

theorem finSorted_sorted (ds : List DriverSt) :
    List.Sorted (fun a b : ℕ × DriverSt =>
      a.2.cumulativeLapTime ≤ b.2.cumulativeLapTime) (finSorted ds) := by
  haveI : IsTotal (ℕ × DriverSt)
      (fun a b => a.2.cumulativeLapTime ≤ b.2.cumulativeLapTime) :=
    ⟨fun a b => le_total _ _⟩
  haveI : IsTrans (ℕ × DriverSt)
      (fun a b => a.2.cumulativeLapTime ≤ b.2.cumulativeLapTime) :=
    ⟨fun _ _ _ h1 h2 => le_trans h1 h2⟩
  exact List.sorted_insertionSort _ _

theorem dnfSorted_sorted (ds : List DriverSt) :
    List.Sorted (fun a b : ℕ × DriverSt =>
      dnfSortKey b.2 ≤ dnfSortKey a.2) (dnfSorted ds) := by
  haveI : IsTotal (ℕ × DriverSt) (fun a b => dnfSortKey b.2 ≤ dnfSortKey a.2) :=
    ⟨fun a b => le_total (dnfSortKey b.2) (dnfSortKey a.2)⟩
  haveI : IsTrans (ℕ × DriverSt) (fun a b => dnfSortKey b.2 ≤ dnfSortKey a.2) :=
    ⟨fun _ _ _ h1 h2 => le_trans h2 h1⟩
  exact List.sorted_insertionSort _ _

theorem rankedIdx_eq (ds : List DriverSt) :
    rankedIdx ds = (finSorted ds).map Prod.fst ++ (dnfSorted ds).map Prod.fst := by
  unfold rankedIdx finalRanking
  exact List.map_append _ _ _

theorem finalPos_of_alive (ds : List DriverSt) (i : ℕ)
    (h : i ∈ (finSorted ds).map Prod.fst) :
    finalPos ds i = listIdx i ((finSorted ds).map Prod.fst) + 1 := by
  unfold finalPos
  rw [rankedIdx_eq, listIdx_append_left _ h]

theorem finalPos_of_dead (ds : List DriverSt) (i : ℕ)
    (h : i ∉ (finSorted ds).map Prod.fst) :
    finalPos ds i = (finSorted ds).length + listIdx i ((dnfSorted ds).map Prod.fst) + 1 := by
  unfold finalPos
  rw [rankedIdx_eq, listIdx_append_right _ h, List.length_map]

/-- The pair found at the position `listIdx i` of a sorted pair list
whose index component contains `i` is `(i, ds[i])`. -/
theorem sorted_pair_at_listIdx (ds : List DriverSt) (l : List (ℕ × DriverSt))
    (hiff : ∀ p : ℕ × DriverSt, p ∈ l ↔ ds[p.1]? = some p.2 ∧ p.2.alive = true)
    (i : ℕ) (hi : i < ds.length) (hmem : i ∈ l.map Prod.fst)
    (hb : listIdx i (l.map Prod.fst) < l.length) :
    l.get ⟨listIdx i (l.map Prod.fst), hb⟩ = (i, ds.get ⟨i, hi⟩) := by
  have hb2 : listIdx i (l.map Prod.fst) < (l.map Prod.fst).length := by
    simpa using hb
  have h1 : (l.map Prod.fst).get ⟨listIdx i (l.map Prod.fst), hb2⟩ = i :=
    listIdx_get hmem
  have h2 : (l.map Prod.fst).get ⟨listIdx i (l.map Prod.fst), hb2⟩
      = (l.get ⟨listIdx i (l.map Prod.fst), hb⟩).1 := by
    simp [List.get_map]
  have hfst : (l.get ⟨listIdx i (l.map Prod.fst), hb⟩).1 = i := by
    rw [← h2, h1]
  have hmem2 : l.get ⟨listIdx i (l.map Prod.fst), hb⟩ ∈ l := List.get_mem _ _ _
  have := (hiff _).mp hmem2
  rw [hfst] at this
  have hsome : ds[i]? = some (l.get ⟨listIdx i (l.map Prod.fst), hb⟩).2 := this.1
  have hval : ds[i]? = some (ds.get ⟨i, hi⟩) := List.getElem?_eq_getElem hi
  rw [hval] at hsome
  have := Option.some.inj hsome
  exact Prod.ext hfst this.symm

/-- Same statement for the retirees list. -/
theorem sorted_pair_at_listIdx_dead (ds : List DriverSt) (l : List (ℕ × DriverSt))
    (hiff : ∀ p : ℕ × DriverSt, p ∈ l ↔ ds[p.1]? = some p.2 ∧ p.2.alive = false)
    (i : ℕ) (hi : i < ds.length) (hmem : i ∈ l.map Prod.fst)
    (hb : listIdx i (l.map Prod.fst) < l.length) :
    l.get ⟨listIdx i (l.map Prod.fst), hb⟩ = (i, ds.get ⟨i, hi⟩) := by
  have hb2 : listIdx i (l.map Prod.fst) < (l.map Prod.fst).length := by
    simpa using hb
  have h1 : (l.map Prod.fst).get ⟨listIdx i (l.map Prod.fst), hb2⟩ = i :=
    listIdx_get hmem
  have h2 : (l.map Prod.fst).get ⟨listIdx i (l.map Prod.fst), hb2⟩
      = (l.get ⟨listIdx i (l.map Prod.fst), hb⟩).1 := by
    simp [List.get_map]
  have hfst : (l.get ⟨listIdx i (l.map Prod.fst), hb⟩).1 = i := by
    rw [← h2, h1]
  have hmem2 : l.get ⟨listIdx i (l.map Prod.fst), hb⟩ ∈ l := List.get_mem _ _ _
  have := (hiff _).mp hmem2
  rw [hfst] at this
  have hsome : ds[i]? = some (l.get ⟨listIdx i (l.map Prod.fst), hb⟩).2 := this.1
  have hval : ds[i]? = some (ds.get ⟨i, hi⟩) := List.getElem?_eq_getElem hi
  rw [hval] at hsome
  have := Option.some.inj hsome
  exact Prod.ext hfst this.symm

theorem classification_alive_mem (ds : List DriverSt) (i : ℕ) (hi : i < ds.length)
    (ha : (ds.get ⟨i, hi⟩).alive = true) : i ∈ (finSorted ds).map Prod.fst :=
  (mem_finIdx_iff ds i).mpr ⟨ds.get ⟨i, hi⟩, List.getElem?_eq_getElem hi, ha⟩

theorem classification_dead_mem (ds : List DriverSt) (i : ℕ) (hi : i < ds.length)
    (ha : ¬ (ds.get ⟨i, hi⟩).alive = true) : i ∈ (dnfSorted ds).map Prod.fst :=
  (mem_dnfIdx_iff ds i).mpr
    ⟨ds.get ⟨i, hi⟩, List.getElem?_eq_getElem hi, Bool.not_eq_true _ ▸ ha⟩

theorem classification_dead_not_fin (ds : List DriverSt) (i : ℕ) (hi : i < ds.length)
    (ha : ¬ (ds.get ⟨i, hi⟩).alive = true) : i ∉ (finSorted ds).map Prod.fst := by
  intro hmem
  rcases (mem_finIdx_iff ds i).mp hmem with ⟨d, hd, hda⟩
  rw [List.getElem?_eq_getElem hi] at hd
  have he : ds.get ⟨i, hi⟩ = d := Option.some.inj hd
  rw [← he] at hda
  exact ha hda

theorem classification_alive_consistent (ds : List DriverSt) (i j : ℕ)
    (hi : i < ds.length) (hj : j < ds.length)
    (hai : (ds.get ⟨i, hi⟩).alive = true) (haj : (ds.get ⟨j, hj⟩).alive = true)
    (hlt : finalPos ds i < finalPos ds j) :
    (ds.get ⟨i, hi⟩).cumulativeLapTime ≤ (ds.get ⟨j, hj⟩).cumulativeLapTime := by
  have hmi := classification_alive_mem ds i hi hai
  have hmj := classification_alive_mem ds j hj haj
  rw [finalPos_of_alive ds i hmi, finalPos_of_alive ds j hmj] at hlt
  have hlt2 : listIdx i ((finSorted ds).map Prod.fst)
      < listIdx j ((finSorted ds).map Prod.fst) := by omega
  have hbi : listIdx i ((finSorted ds).map Prod.fst) < (finSorted ds).length := by
    have := listIdx_lt_length hmi
    simpa using this
  have hbj : listIdx j ((finSorted ds).map Prod.fst) < (finSorted ds).length := by
    have := listIdx_lt_length hmj
    simpa using this
  have hrel := (finSorted_sorted ds).rel_get_of_lt
    (a := ⟨listIdx i ((finSorted ds).map Prod.fst), hbi⟩)
    (b := ⟨listIdx j ((finSorted ds).map Prod.fst), hbj⟩) hlt2
  rw [sorted_pair_at_listIdx ds (finSorted ds) (mem_finSorted_iff ds) i hi hmi hbi,
      sorted_pair_at_listIdx ds (finSorted ds) (mem_finSorted_iff ds) j hj hmj hbj] at hrel
  exact hrel

theorem classification_alive_range (ds : List DriverSt) (i : ℕ) (hi : i < ds.length)
    (ha : (ds.get ⟨i, hi⟩).alive = true) :
    1 ≤ finalPos ds i ∧ finalPos ds i ≤ aliveCount ds := by
  have hmi := classification_alive_mem ds i hi ha
  rw [finalPos_of_alive ds i hmi]
  have hb : listIdx i ((finSorted ds).map Prod.fst) < (finSorted ds).length := by
    have := listIdx_lt_length hmi
    simpa using this
  rw [finSorted_length] at hb
  omega

theorem classification_dead_range (ds : List DriverSt) (i : ℕ) (hi : i < ds.length)
    (ha : ¬ (ds.get ⟨i, hi⟩).alive = true) :
    aliveCount ds < finalPos ds i ∧ finalPos ds i ≤ ds.length := by
  have hnf := classification_dead_not_fin ds i hi ha
  have hmd := classification_dead_mem ds i hi ha
  rw [finalPos_of_dead ds i hnf]
  have hb : listIdx i ((dnfSorted ds).map Prod.fst) < (dnfSorted ds).length := by
    have := listIdx_lt_length hmd
    simpa using this
  have htot : (finSorted ds).length + (dnfSorted ds).length = ds.length := by
    have h1 := rankedIdx_length ds
    rw [rankedIdx_eq] at h1
    simpa using h1
  have hfl := finSorted_length ds
  omega

theorem classification_dead_antitone (ds : List DriverSt) (i j : ℕ)
    (hi : i < ds.length) (hj : j < ds.length) (ki kj : ℕ)
    (hai : ¬ (ds.get ⟨i, hi⟩).alive = true) (haj : ¬ (ds.get ⟨j, hj⟩).alive = true)
    (hki : (ds.get ⟨i, hi⟩).earliestDnfLap = some ki)
    (hkj : (ds.get ⟨j, hj⟩).earliestDnfLap = some kj)
    (h1 : 1 ≤ ki) (hlt : ki < kj) : finalPos ds j < finalPos ds i := by
  have hmi := classification_dead_mem ds i hi hai
  have hmj := classification_dead_mem ds j hj haj
  have hbi : listIdx i ((dnfSorted ds).map Prod.fst) < (dnfSorted ds).length := by
    have := listIdx_lt_length hmi
    simpa using this
  have hbj : listIdx j ((dnfSorted ds).map Prod.fst) < (dnfSorted ds).length := by
    have := listIdx_lt_length hmj
    simpa using this
  have hne : i ≠ j := by
    intro he
    subst he
    rw [hki] at hkj
    have := Option.some.inj hkj
    omega
  have hkeyi : dnfSortKey (ds.get ⟨i, hi⟩) = (ki : WithTop ℕ) := by
    unfold dnfSortKey
    rw [hki]
    simp only
    rw [if_neg (by omega)]
  have hkeyj : dnfSortKey (ds.get ⟨j, hj⟩) = (kj : WithTop ℕ) := by
    unfold dnfSortKey
    rw [hkj]
    simp only
    rw [if_neg (by omega)]
  have hidxne : listIdx i ((dnfSorted ds).map Prod.fst)
      ≠ listIdx j ((dnfSorted ds).map Prod.fst) := by
    intro he
    apply hne
    have hgi := sorted_pair_at_listIdx_dead ds (dnfSorted ds) (mem_dnfSorted_iff ds) i hi hmi hbi
    have hgj := sorted_pair_at_listIdx_dead ds (dnfSorted ds) (mem_dnfSorted_iff ds) j hj hmj hbj
    have hfe : (⟨listIdx i ((dnfSorted ds).map Prod.fst), hbi⟩ : Fin (dnfSorted ds).length)
        = ⟨listIdx j ((dnfSorted ds).map Prod.fst), hbj⟩ := by
      apply Fin.ext
      exact he
    have : ((dnfSorted ds).get ⟨listIdx i ((dnfSorted ds).map Prod.fst), hbi⟩).1
        = ((dnfSorted ds).get ⟨listIdx j ((dnfSorted ds).map Prod.fst), hbj⟩).1 := by
      rw [hfe]
    rw [hgi, hgj] at this
    exact this
  rcases Nat.lt_or_ge (listIdx i ((dnfSorted ds).map Prod.fst))
      (listIdx j ((dnfSorted ds).map Prod.fst)) with hij | hij
  · exfalso
    have hrel := (dnfSorted_sorted ds).rel_get_of_lt
      (a := ⟨listIdx i ((dnfSorted ds).map Prod.fst), hbi⟩)
      (b := ⟨listIdx j ((dnfSorted ds).map Prod.fst), hbj⟩) hij
    rw [sorted_pair_at_listIdx_dead ds (dnfSorted ds) (mem_dnfSorted_iff ds) i hi hmi hbi,
        sorted_pair_at_listIdx_dead ds (dnfSorted ds) (mem_dnfSorted_iff ds) j hj hmj hbj]
      at hrel
    simp only at hrel
    rw [hkeyi, hkeyj] at hrel
    have : kj ≤ ki := by exact_mod_cast hrel
    omega
  · have hij2 : listIdx j ((dnfSorted ds).map Prod.fst)
        < listIdx i ((dnfSorted ds).map Prod.fst) := by omega
    have hnf_i := classification_dead_not_fin ds i hi hai
    have hnf_j := classification_dead_not_fin ds j hj haj
    rw [finalPos_of_dead ds i hnf_i, finalPos_of_dead ds j hnf_j]
    omega

theorem classification_earliest_last (ds : List DriverSt) (i : ℕ) (hi : i < ds.length)
    (ki : ℕ) (hai : ¬ (ds.get ⟨i, hi⟩).alive = true)
    (hki : (ds.get ⟨i, hi⟩).earliestDnfLap = some ki) (h1 : 1 ≤ ki)
    (hmin : ∀ j (hj : j < ds.length), ¬ (ds.get ⟨j, hj⟩).alive = true → j ≠ i →
      ∃ kj, (ds.get ⟨j, hj⟩).earliestDnfLap = some kj ∧ ki < kj) :
    finalPos ds i = ds.length := by
  have hN : 1 ≤ ds.length := by omega
  have hNmem : ds.length ∈ List.range' 1 ds.length := by
    rw [List.mem_range'_1]
    omega
  have hNpos : ds.length ∈ (finalOutcomes ds).map (fun o => o.finalPosition) :=
    (finalOutcomes_positions_perm ds).mem_iff.mpr hNmem
  rcases List.mem_map.mp hNpos with ⟨o, ho, hoN⟩
  unfold finalOutcomes at ho
  rcases List.mem_map.mp ho with ⟨p, hp, hpo⟩
  have hm : ds[p.1]? = some p.2 := List.mem_enum_iff_getElem?.mp hp
  have hmlt : p.1 < ds.length := by
    have := List.getElem?_eq_some.mp hm
    exact this.1
  have hposm : finalPos ds p.1 = ds.length := by
    rw [← hoN, ← hpo]
  have hpval : p.2 = ds.get ⟨p.1, hmlt⟩ := by
    rw [List.getElem?_eq_getElem hmlt] at hm
    exact (Option.some.inj hm).symm
  by_cases hal : (ds.get ⟨p.1, hmlt⟩).alive = true
  · exfalso
    have hb := (classification_alive_range ds p.1 hmlt hal).2
    have hc := (classification_dead_range ds i hi hai).1
    have hd := (classification_dead_range ds i hi hai).2
    omega
  · by_cases heq : p.1 = i
    · rw [← heq]
      exact hposm
    · exfalso
      rcases hmin p.1 hmlt hal heq with ⟨km, hkm, hkmgt⟩
      have := classification_dead_antitone ds i p.1 hi hmlt ki km hai hal hki hkm h1 hkmgt
      have hle := (classification_dead_range ds i hi hai).2
      omega

theorem finalOutcomes_positions_eq (ds : List DriverSt) :
    (finalOutcomes ds).map (fun o => o.finalPosition)
      = (List.range ds.length).map (finalPos ds) := by
  unfold finalOutcomes
  rw [List.map_map, ← List.enum_map_fst ds, List.map_map]
  rfl

/-- C2 amended: in the final classification, finishers receive positions
`1 … aliveCount` consistent with ascending cumulative time; retirees
occupy positions `aliveCount+1 … N`; among retirees whose
`earliest_dnf_lap` is at least 1 an earlier retirement yields a strictly
worse position, and the retiree whose DNF lap is strictly smallest
receives the worst position `N` — a retiree with `earliest_dnf_lap = 0`
is excluded because `src/run.py` keys the sort by
`earliest_dnf_lap or np.inf`, which maps the (reachable) lap 0 to
infinity and hands that retiree the best retiree position instead.  The
last conjunct ties `finalPos` to the rows of the `outcomes` table. -/
theorem final_classification_order (ds : List DriverSt) :
    (∀ i j (hi : i < ds.length) (hj : j < ds.length),
      (ds.get ⟨i, hi⟩).alive = true → (ds.get ⟨j, hj⟩).alive = true →
      finalPos ds i < finalPos ds j →
      (ds.get ⟨i, hi⟩).cumulativeLapTime ≤ (ds.get ⟨j, hj⟩).cumulativeLapTime)
    ∧ (∀ i (hi : i < ds.length), (ds.get ⟨i, hi⟩).alive = true →
      1 ≤ finalPos ds i ∧ finalPos ds i ≤ aliveCount ds)
    ∧ (∀ i (hi : i < ds.length), ¬ (ds.get ⟨i, hi⟩).alive = true →
      aliveCount ds < finalPos ds i ∧ finalPos ds i ≤ ds.length)
    ∧ (∀ i j (hi : i < ds.length) (hj : j < ds.length) (ki kj : ℕ),
      ¬ (ds.get ⟨i, hi⟩).alive = true → ¬ (ds.get ⟨j, hj⟩).alive = true →
      (ds.get ⟨i, hi⟩).earliestDnfLap = some ki →
      (ds.get ⟨j, hj⟩).earliestDnfLap = some kj →
      1 ≤ ki → ki < kj → finalPos ds j < finalPos ds i)
    ∧ (∀ i (hi : i < ds.length) (ki : ℕ),
      ¬ (ds.get ⟨i, hi⟩).alive = true →
      (ds.get ⟨i, hi⟩).earliestDnfLap = some ki → 1 ≤ ki →
      (∀ j (hj : j < ds.length), ¬ (ds.get ⟨j, hj⟩).alive = true → j ≠ i →
        ∃ kj, (ds.get ⟨j, hj⟩).earliestDnfLap = some kj ∧ ki < kj) →
      finalPos ds i = ds.length)
    ∧ (finalOutcomes ds).map (fun o => o.finalPosition)
        = (List.range ds.length).map (finalPos ds) :=
  ⟨classification_alive_consistent ds, classification_alive_range ds,
   classification_dead_range ds, classification_dead_antitone ds,
   classification_earliest_last ds, finalOutcomes_positions_eq ds⟩

/-- Counterexample to C2 as stated: two retirees with DNF laps 0 and 5
(lap 0 is reachable — the test-mode DNF table of `src/run.py` maps
Pascal Wehrlein to lap 0).  The earliest retiree (lap 0) must receive the
worst position 2 by the claim, but the classification of `src/run.py`
sorts it as `np.inf` and gives it the best retiree position 1. -/
theorem final_classification_counterexample :
    deadAtZero.alive = false ∧ deadAtFive.alive = false
    ∧ deadAtZero.earliestDnfLap = some 0 ∧ deadAtFive.earliestDnfLap = some 5
    ∧ (finalOutcomes [deadAtZero, deadAtFive]).map (fun o => o.finalPosition) = [1, 2] := by
  refine ⟨rfl, rfl, rfl, rfl, ?_⟩
  decide

/-- Witness for C2 amended, at a grid of one finisher and two retirees
with DNF laps 5 and 9: the earliest proper retiree is classified last. -/
theorem final_classification_order_witness :
    finalPos [baseDriver, deadAtFive, deadAtNine] 1 = 3 :=
  (final_classification_order [baseDriver, deadAtFive, deadAtNine]).2.2.2.2.1 1
    (by decide) 5 (by decide) (by decide) (by decide)
    (fun j hj hdead hne => by
      have hj3 : j < 3 := by simpa using hj
      interval_cases j
      · exact absurd (show ([baseDriver, deadAtFive, deadAtNine].get ⟨0, hj⟩).alive = true by
          show baseDriver.alive = true
          rfl) hdead
      · exact absurd rfl hne
      · refine ⟨9, ?_, by omega⟩
        show deadAtNine.earliestDnfLap = some 9
        rfl)

/-! ### Alive flag monotonicity (C7) -/

theorem update_status_eq (d : DriverSt) (lap : ℕ) :
    update_status d lap = match d.earliestDnfLap with
      | some k => if k ≤ lap then { d with alive := false } else d
      | none => d := rfl

theorem update_status_dnf (d : DriverSt) (lap : ℕ) :
    (update_status d lap).earliestDnfLap = d.earliestDnfLap := by
  rw [update_status_eq]
  cases hk : d.earliestDnfLap with
  | none => simpa using hk
  | some k => by_cases h : k ≤ lap <;> simp [h, hk]

theorem update_status_alive_true {d : DriverSt} {lap : ℕ}
    (h : (update_status d lap).alive = true) : d.alive = true := by
  rw [update_status_eq] at h
  cases hk : d.earliestDnfLap with
  | none => rw [hk] at h; exact h
  | some k =>
    rw [hk] at h
    by_cases hle : k ≤ lap
    · simp [hle] at h
    · simp [hle] at h; exact h

theorem update_status_alive_of_dnf {d : DriverSt} {lap k : ℕ}
    (hk : d.earliestDnfLap = some k) :
    (update_status d lap).alive = if k ≤ lap then false else d.alive := by
  rw [update_status_eq, hk]
  by_cases h : k ≤ lap <;> simp [h]

theorem pit_stop_alive (cfg : RaceCfg) (d : DriverSt) (lap : ℕ) (rng : List ℚ) :
    ((pit_stop cfg d lap rng).2.1).alive = d.alive := by
  unfold pit_stop
  cases d.stops d.nextPitStop with
  | none => rfl
  | some entry =>
    simp only
    split
    · cases h : calcPitDuration cfg d.team rng with
      | error e => rfl
      | ok pr => rfl
    · rfl

theorem pit_stop_dnf (cfg : RaceCfg) (d : DriverSt) (lap : ℕ) (rng : List ℚ) :
    ((pit_stop cfg d lap rng).2.1).earliestDnfLap = d.earliestDnfLap := by
  unfold pit_stop
  cases d.stops d.nextPitStop with
  | none => rfl
  | some entry =>
    simp only
    split
    · cases h : calcPitDuration cfg d.team rng with
      | error e => rfl
      | ok pr => rfl
    · rfl

theorem driverLap_alive_eq (cfg : RaceCfg) (sc : List ℕ) (lap : ℕ) (d : DriverSt)
    (rng : List ℚ) : (driverLap cfg sc lap d rng).1.alive = (update_status d lap).alive := by
  unfold driverLap
  by_cases h : (update_status d lap).alive = true
  · rw [if_pos h]
    simp only
    rw [pit_stop_alive]
    exact h.symm ▸ rfl
  · rw [if_neg h]

theorem driverLap_dnf_eq (cfg : RaceCfg) (sc : List ℕ) (lap : ℕ) (d : DriverSt)
    (rng : List ℚ) :
    (driverLap cfg sc lap d rng).1.earliestDnfLap = d.earliestDnfLap := by
  unfold driverLap
  by_cases h : (update_status d lap).alive = true
  · rw [if_pos h]
    simp only
    rw [pit_stop_dnf]
    show (update_info (update_status d lap) lap cfg.numberOfLaps).earliestDnfLap
      = d.earliestDnfLap
    show (update_status d lap).earliestDnfLap = d.earliestDnfLap
    exact update_status_dnf d lap
  · rw [if_neg h]
    show (update_status d lap).earliestDnfLap = d.earliestDnfLap
    exact update_status_dnf d lap

theorem mapRng_getElem_ex (f : DriverSt → List ℚ → DriverSt × List ℚ) :
    ∀ (ds : List DriverSt) (rng : List ℚ) (i : ℕ) (d : DriverSt),
      ds[i]? = some d → ∃ r, ((mapRng f ds rng).1)[i]? = some ((f d r).1) := by
  intro ds
  induction ds with
  | nil => intro rng i d h; simp at h
  | cons a as ih =>
    intro rng i d h
    cases i with
    | zero =>
      have ha : a = d := by simpa using h
      refine ⟨rng, ?_⟩
      subst ha
      simp [mapRng]
    | succ i =>
      have hs : as[i]? = some d := by simpa using h
      rcases ih (f a rng).2 i d hs with ⟨r, hr⟩
      exact ⟨r, by simpa [mapRng] using hr⟩

theorem positionsUpdate_fields (ds : List DriverSt) (i : ℕ) (d : DriverSt)
    (h : ds[i]? = some d) :
    ∃ d', (positionsUpdate ds)[i]? = some d'
      ∧ d'.alive = d.alive ∧ d'.earliestDnfLap = d.earliestDnfLap
      ∧ d'.cumulativeLapTime = d.cumulativeLapTime ∧ d'.fuelc = d.fuelc
      ∧ d'.tireAge = d.tireAge ∧ d'.driverId = d.driverId
      ∧ d'.name = d.name ∧ d'.currentLapTime = d.currentLapTime := by
  unfold positionsUpdate
  rw [List.getElem?_map, List.getElem?_enum, h]
  simp only [Option.map_some]
  by_cases ha : d.alive = true <;>
    exact ⟨_, rfl, by simp [ha]⟩

theorem lapBody_pointwise (cfg : RaceCfg) (lap : ℕ) (s : SimSt) (i : ℕ) (d : DriverSt)
    (h : s.drivers[i]? = some d) :
    ∃ d', (lapBody cfg lap s).drivers[i]? = some d'
      ∧ d'.alive = (update_status d lap).alive
      ∧ d'.earliestDnfLap = d.earliestDnfLap := by
  rcases mapRng_getElem_ex (driverLap cfg s.safetyCarLaps lap) s.drivers s.rng i d h
    with ⟨r, hr⟩
  rcases positionsUpdate_fields _ i _ hr with ⟨d', hd', ha, hdnf, _⟩
  refine ⟨d', hd', ?_, ?_⟩
  · rw [ha, driverLap_alive_eq]
  · rw [hdnf, driverLap_dnf_eq]

theorem statesUpTo_alive_mono (cfg : RaceCfg) (s0 : SimSt) (m i : ℕ)
    (d d' : DriverSt) (h : (statesUpTo cfg s0 m).drivers[i]? = some d)
    (h' : (statesUpTo cfg s0 (m + 1)).drivers[i]? = some d')
    (ha : d'.alive = true) : d.alive = true := by
  rcases lapBody_pointwise cfg (m + 1) (statesUpTo cfg s0 m) i d h with ⟨d'', hd'', ha2, _⟩
  have : d'' = d' := by
    have := hd''.symm.trans h'
    exact Option.some.inj this
  subst this
  rw [ha] at ha2
  exact update_status_alive_true ha2.symm

theorem statesUpTo_alive_transition (cfg : RaceCfg) (s0 : SimSt) (i : ℕ)
    (d : DriverSt) (k : ℕ) (h0 : s0.drivers[i]? = some d)
    (hk : d.earliestDnfLap = some k) (hk1 : 1 ≤ k) (ha0 : d.alive = true) :
    ∀ m, ∃ d', (statesUpTo cfg s0 m).drivers[i]? = some d'
      ∧ d'.earliestDnfLap = some k ∧ (d'.alive = true ↔ m < k) := by
  intro m
  induction m with
  | zero => exact ⟨d, h0, hk, by simp [ha0]; omega⟩
  | succ m ih =>
    rcases ih with ⟨dm, hm, hdnf, haliv⟩
    rcases lapBody_pointwise cfg (m + 1) (statesUpTo cfg s0 m) i dm hm
      with ⟨d', hd', ha', hdnf'⟩
    refine ⟨d', hd', hdnf' ▸ hdnf, ?_⟩
    rw [ha', update_status_alive_of_dnf hdnf]
    by_cases hle : k ≤ m + 1
    · rw [if_pos hle]
      constructor
      · intro hf; cases hf
      · intro hlt; omega
    · rw [if_neg hle]
      rw [haliv]
      omega

theorem iterate_statusNew_transition (d : DriverSt) (k : ℕ)
    (hk : d.earliestDnfLap = some k) (hk1 : 1 ≤ k) (ha0 : d.alive = true) :
    ∀ m, (iterate_statusNew d m).earliestDnfLap = some k
      ∧ ((iterate_statusNew d m).alive = true ↔ m < k) := by
  intro m
  induction m with
  | zero => exact ⟨hk, by simp [iterate_statusNew, ha0]; omega⟩
  | succ m ih =>
    rcases ih with ⟨hdnf, haliv⟩
    constructor
    · show (update_statusNew (iterate_statusNew d m) (m + 1)).earliestDnfLap = some k
      unfold update_statusNew
      split <;> simpa using hdnf
    · show (update_statusNew (iterate_statusNew d m) (m + 1)).alive = true ↔ m + 1 < k
      unfold update_statusNew
      by_cases hc : (iterate_statusNew d m).alive = true
          ∧ (iterate_statusNew d m).earliestDnfLap = some (m + 1)
      · rw [if_pos hc]
        have hkm : k = m + 1 := by
          rcases hc with ⟨_, hc2⟩
          rw [hdnf] at hc2
          exact Option.some.inj hc2
      -- the driver retires exactly on this lap, and m + 1 < k is false
        simp [hkm]
      · rw [if_neg hc]
        by_cases halm : (iterate_statusNew d m).alive = true
        · have hnem : ¬ (iterate_statusNew d m).earliestDnfLap = some (m + 1) := by
            intro hcon
            exact hc ⟨halm, hcon⟩
          have hmk : m < k := haliv.mp halm
          have hkne : k ≠ m + 1 := by
            intro he
            exact hnem (he ▸ hdnf)
          rw [halm]
          constructor
          · intro _; omega
          · intro _; rfl
        · have : ¬ m < k := fun hlt => halm (haliv.mpr hlt)
          simp only [Bool.not_eq_true] at halm
          rw [halm]
          constructor
          · intro hf; cases hf
          · intro hlt; omega

/-- Counterexample to C7 as stated: a driver with `earliest_dnf_lap = 0`
(reachable via the test-mode DNF table entry `"Pascal Wehrlein": 0` of
`src/run.py`) transitions to not-alive at lap 1, not at the lap equal to
`earliest_dnf_lap`; in `src/New/driver.py` the same driver never
transitions at all. -/
theorem alive_transition_counterexample :
    driverDnfZero.alive = true ∧ driverDnfZero.earliestDnfLap = some 0
    ∧ (update_status driverDnfZero 1).alive = false
    ∧ (0 : ℕ) ≠ 1
    ∧ (iterate_statusNew driverDnfZero 5).alive = true := by
  refine ⟨rfl, rfl, ?_, by omega, ?_⟩ <;> decide

/-- C7 amended: across the lap loop, `alive` is monotone non-increasing
(no operation revives a driver), and for a driver whose
`earliest_dnf_lap = k` satisfies `1 ≤ k` — as every probabilistically
drawn DNF lap does — the driver is alive after lap `m` exactly when
`m < k`, i.e. the true→false transition happens exactly at lap `k`; the
same holds for the `update_status` of `src/New/driver.py` iterated over
laps `1 … m`.  The run states are those of `statesUpTo`, which `run`
iterates from its initialized state. -/
theorem alive_monotone :
    (∀ cfg : RaceCfg, ∀ s0 : SimSt, ∀ m i : ℕ, ∀ d d' : DriverSt,
      (statesUpTo cfg s0 m).drivers[i]? = some d →
      (statesUpTo cfg s0 (m + 1)).drivers[i]? = some d' →
      d'.alive = true → d.alive = true)
    ∧ (∀ cfg : RaceCfg, ∀ s0 : SimSt, ∀ i : ℕ, ∀ d : DriverSt, ∀ k : ℕ,
      s0.drivers[i]? = some d → d.earliestDnfLap = some k → 1 ≤ k →
      d.alive = true →
      ∀ m, ∃ d', (statesUpTo cfg s0 m).drivers[i]? = some d'
        ∧ d'.earliestDnfLap = some k ∧ (d'.alive = true ↔ m < k))
    ∧ (∀ d : DriverSt, ∀ k : ℕ, d.earliestDnfLap = some k → 1 ≤ k →
      d.alive = true →
      ∀ m, (iterate_statusNew d m).earliestDnfLap = some k
        ∧ ((iterate_statusNew d m).alive = true ↔ m < k)) :=
  ⟨statesUpTo_alive_mono, statesUpTo_alive_transition, iterate_statusNew_transition⟩

/-- Witness for C7 amended: a driver retiring at lap 2 is still alive
after lap 1 and retired after lap 3 of the loop. -/
theorem alive_monotone_witness :
    ∃ d', (statesUpTo cfgCalib s0W 3).drivers[0]? = some d'
      ∧ d'.earliestDnfLap = some 2 ∧ (d'.alive = true ↔ 3 < 2) :=
  alive_monotone.2.1 cfgCalib s0W 0 driverDnfTwo 2 rfl rfl (by decide) rfl 3

/-! ### Test-mode determinism (C4) -/

theorem pit_stop_none (cfg : RaceCfg) (d : DriverSt) (lap : ℕ) (rng : List ℚ)
    (h : d.stops d.nextPitStop = none) : pit_stop cfg d lap rng = (0, d, rng) := by
  unfold pit_stop
  rw [h]

theorem pit_stop_stops (cfg : RaceCfg) (d : DriverSt) (lap : ℕ) (rng : List ℚ) :
    ((pit_stop cfg d lap rng).2.1).stops = d.stops := by
  unfold pit_stop
  cases d.stops d.nextPitStop with
  | none => rfl
  | some entry =>
    simp only
    split
    · cases h : calcPitDuration cfg d.team rng with
      | error e => rfl
      | ok pr => rfl
    · rfl

theorem driverLap_stops (cfg : RaceCfg) (sc : List ℕ) (lap : ℕ) (d : DriverSt)
    (rng : List ℚ) : (driverLap cfg sc lap d rng).1.stops = d.stops := by
  unfold driverLap
  by_cases h : (update_status d lap).alive = true
  · rw [if_pos h]
    simp only
    rw [pit_stop_stops]
    show (update_status d lap).stops = d.stops
    rw [update_status_eq]
    cases hk : d.earliestDnfLap with
    | none => rfl
    | some k => by_cases hle : k ≤ lap <;> simp [hle]
  · rw [if_neg h]
    show (update_status d lap).stops = d.stops
    rw [update_status_eq]
    cases hk : d.earliestDnfLap with
    | none => rfl
    | some k => by_cases hle : k ≤ lap <;> simp [hle]

theorem update_status_stops (d : DriverSt) (lap : ℕ) :
    (update_status d lap).stops = d.stops := by
  rw [update_status_eq]
  cases hk : d.earliestDnfLap with
  | none => rfl
  | some k => by_cases hle : k ≤ lap <;> simp [hle]

theorem driverLap_testmode_pure (cfg : RaceCfg) (sc : List ℕ) (lap : ℕ)
    (d : DriverSt) (rng : List ℚ) (ht : cfg.testMode = true)
    (hst : ∀ k, d.stops k = none) :
    driverLap cfg sc lap d rng = ((driverLap cfg sc lap d []).1, rng) := by
  unfold driverLap compute_lap_time
  simp only [ht, if_true]
  by_cases h : (update_status d lap).alive = true
  · rw [if_pos h, if_pos h]
    have hst2 : ∀ k, (update_info (update_status d lap) lap cfg.numberOfLaps).stops k
        = none := by
      intro k
      show (update_status d lap).stops k = none
      rw [update_status_stops]
      exact hst k
    rw [pit_stop_none _ _ _ _ (hst2 _), pit_stop_none _ _ _ _ (hst2 _)]
  · rw [if_neg h, if_neg h]

theorem mapRng_pure (f : DriverSt → List ℚ → DriverSt × List ℚ) :
    ∀ (ds : List DriverSt) (rng : List ℚ),
      (∀ d ∈ ds, ∀ r, f d r = ((f d []).1, r)) →
      mapRng f ds rng = ((mapRng f ds []).1, rng) := by
  intro ds
  induction ds with
  | nil => intro rng h; rfl
  | cons a as ih =>
    intro rng h
    have ha := h a (List.mem_cons_self a as)
    have has : ∀ d ∈ as, ∀ r, f d r = ((f d []).1, r) :=
      fun d hd => h d (List.mem_cons_of_mem a hd)
    have ha2 : (f a []).2 = [] := by rw [ha []]
    simp only [mapRng]
    rw [ha rng]
    simp only
    rw [ih rng has, ha2, ih [] has]

theorem mapRng_mem (f : DriverSt → List ℚ → DriverSt × List ℚ) :
    ∀ (ds : List DriverSt) (rng : List ℚ) (d' : DriverSt),
      d' ∈ (mapRng f ds rng).1 → ∃ d ∈ ds, ∃ r, d' = (f d r).1 := by
  intro ds
  induction ds with
  | nil => intro rng d' h; simp [mapRng] at h
  | cons a as ih =>
    intro rng d' h
    simp only [mapRng] at h
    rcases List.mem_cons.mp h with h1 | h1
    · exact ⟨a, List.mem_cons_self a as, rng, h1⟩
    · rcases ih (f a rng).2 d' h1 with ⟨d, hd, r, hr⟩
      exact ⟨d, List.mem_cons_of_mem a hd, r, hr⟩

theorem positionsUpdate_stops (ds : List DriverSt) (d' : DriverSt)
    (h : d' ∈ positionsUpdate ds) : ∃ d ∈ ds, d'.stops = d.stops := by
  unfold positionsUpdate at h
  rcases List.mem_map.mp h with ⟨p, hp, hpd⟩
  have hm : ds[p.1]? = some p.2 := List.mem_enum_iff_getElem?.mp hp
  have hmem : p.2 ∈ ds := by
    rcases List.getElem?_eq_some.mp hm with ⟨hlt, hv⟩
    exact hv ▸ List.getElem_mem hlt
  refine ⟨p.2, hmem, ?_⟩
  rw [← hpd]
  by_cases ha : p.2.alive = true <;> simp [ha]

theorem updateFirst_mem (ds : List DriverSt) (i : ℕ) (f : DriverSt → DriverSt)
    (d' : DriverSt) (h : d' ∈ updateFirst ds i f) :
    d' ∈ ds ∨ ∃ d ∈ ds, d' = f d := by
  induction ds with
  | nil => cases h
  | cons a as ih =>
    unfold updateFirst at h
    by_cases ha : a.driverId = i
    · rw [if_pos ha] at h
      rcases List.mem_cons.mp h with h1 | h1
      · exact Or.inr ⟨a, List.mem_cons_self a as, h1⟩
      · exact Or.inl (List.mem_cons_of_mem a h1)
    · rw [if_neg ha] at h
      rcases List.mem_cons.mp h with h1 | h1
      · exact Or.inl (h1 ▸ List.mem_cons_self a as)
      · rcases ih h1 with h2 | ⟨d, hd, hdf⟩
        · exact Or.inl (List.mem_cons_of_mem a h2)
        · exact Or.inr ⟨d, List.mem_cons_of_mem a hd, hdf⟩

theorem add_starting_grid_time_stops_inv (grid : List (ℕ × ℕ)) :
    ∀ ds : List DriverSt, (∀ d ∈ ds, ∀ k, d.stops k = none) →
      ∀ d' ∈ add_starting_grid_time grid ds, ∀ k, d'.stops k = none := by
  induction grid with
  | nil => intro ds h d' hd'; exact h d' hd'
  | cons p rest ih =>
    intro ds h d' hd'
    unfold add_starting_grid_time at hd'
    rw [List.foldl_cons] at hd'
    refine ih _ ?_ d' hd'
    intro e he k
    rcases updateFirst_mem ds p.1 _ e he with h1 | ⟨d, hd, hdf⟩
    · exact h e h1 k
    · rw [hdf]
      show d.stops k = none
      exact h d hd k

theorem lapBody_testmode (cfg : RaceCfg) (lap : ℕ) (ht : cfg.testMode = true)
    (ds : List DriverSt) (sc : List ℕ) (rng : List ℚ) (sm : List SummaryRow)
    (hinv : ∀ d ∈ ds, ∀ k, d.stops k = none) :
    lapBody cfg lap ⟨ds, sc, rng, sm⟩ =
      ⟨positionsUpdate ((mapRng (driverLap cfg sc lap) ds []).1), sc, rng,
        sm ++ ((positionsUpdate ((mapRng (driverLap cfg sc lap) ds []).1)).filter
          fun d => d.alive ∨ d.earliestDnfLap = some lap).map fun d =>
            { lap := lap, driverId := d.driverId, position := d.position,
              lapTime := d.currentLapTime, cumulative := d.cumulativeLapTime,
              status := if d.alive then "running" else "DNF" }⟩ := by
  have hpure := mapRng_pure (driverLap cfg sc lap) ds rng
    (fun d hd r => driverLap_testmode_pure cfg sc lap d r ht (hinv d hd))
  unfold lapBody
  simp only
  rw [hpure]

theorem lapBody_testmode_stops_inv (cfg : RaceCfg) (lap : ℕ) (s : SimSt)
    (hinv : ∀ d ∈ s.drivers, ∀ k, d.stops k = none) :
    ∀ d' ∈ (lapBody cfg lap s).drivers, ∀ k, d'.stops k = none := by
  intro d' hd' k
  have hd'2 : d' ∈ positionsUpdate ((mapRng (driverLap cfg s.safetyCarLaps lap)
      s.drivers s.rng).1) := hd'
  rcases positionsUpdate_stops _ d' hd'2 with ⟨e, he, hes⟩
  rcases mapRng_mem _ _ _ e he with ⟨d, hd, r, hdr⟩
  rw [hes, hdr, driverLap_stops]
  exact hinv d hd k

theorem statesUpTo_testmode_rng_indep (cfg : RaceCfg) (ht : cfg.testMode = true)
    (ds : List DriverSt) (sc : List ℕ) (rng1 rng2 : List ℚ)
    (hinv : ∀ d ∈ ds, ∀ k, d.stops k = none) :
    ∀ m, (statesUpTo cfg ⟨ds, sc, rng1, []⟩ m).drivers
        = (statesUpTo cfg ⟨ds, sc, rng2, []⟩ m).drivers
      ∧ (statesUpTo cfg ⟨ds, sc, rng1, []⟩ m).safetyCarLaps = sc
      ∧ (statesUpTo cfg ⟨ds, sc, rng2, []⟩ m).safetyCarLaps = sc
      ∧ (statesUpTo cfg ⟨ds, sc, rng1, []⟩ m).summary
        = (statesUpTo cfg ⟨ds, sc, rng2, []⟩ m).summary
      ∧ (∀ d ∈ (statesUpTo cfg ⟨ds, sc, rng1, []⟩ m).drivers, ∀ k, d.stops k = none) := by
  intro m
  induction m with
  | zero => exact ⟨rfl, rfl, rfl, rfl, hinv⟩
  | succ m ih =>
    rcases ih with ⟨hdr, hsc1, hsc2, hsm, hinv1⟩
    have hinv2 : ∀ d ∈ (statesUpTo cfg ⟨ds, sc, rng2, []⟩ m).drivers, ∀ k,
        d.stops k = none := by
      rw [← hdr]; exact hinv1
    set s1 := statesUpTo cfg ⟨ds, sc, rng1, []⟩ m with hs1
    set s2 := statesUpTo cfg ⟨ds, sc, rng2, []⟩ m with hs2
    have e1 : s1 = ⟨s1.drivers, sc, s1.rng, s1.summary⟩ := by
      rw [← hsc1]
    have e2 : s2 = ⟨s2.drivers, sc, s2.rng, s2.summary⟩ := by
      rw [← hsc2]
    have hb1 := lapBody_testmode cfg (m + 1) ht s1.drivers sc s1.rng s1.summary hinv1
    have hb2 := lapBody_testmode cfg (m + 1) ht s2.drivers sc s2.rng s2.summary hinv2
    have hstep1 : statesUpTo cfg ⟨ds, sc, rng1, []⟩ (m + 1) = lapBody cfg (m + 1) s1 := rfl
    have hstep2 : statesUpTo cfg ⟨ds, sc, rng2, []⟩ (m + 1) = lapBody cfg (m + 1) s2 := rfl
    rw [hstep1, hstep2, e1, hb1, e2, hb2]
    refine ⟨by rw [hdr], rfl, rfl, by rw [hdr, hsm], ?_⟩
    intro d' hd' k
    simp only at hd'
    rcases positionsUpdate_stops _ d' hd' with ⟨e, he, hes⟩
    rcases mapRng_mem _ _ _ e he with ⟨d, hd, r, hdr2⟩
    rw [hes, hdr2, driverLap_stops]
    exact hinv1 d hd k

theorem simulate_dnf_lap_test_stops (cfg : RaceCfg) (d : DriverSt) :
    (simulate_dnf_lap_test cfg d).stops = d.stops := by
  unfold simulate_dnf_lap_test
  cases cfg.dnfTable d.name <;> rfl

/-- C4 amended: in test mode the two pre-race tables are fixed and the
Gaussian residual is zeroed, so when no driver has any integer-keyed
strategy entry (hence no pit stop can ever be attempted) the whole
outcomes table is independent of the random stream and of the
probabilistic oracles: two runs on identical inputs coincide. -/
theorem test_mode_determinism (cfg : RaceCfg) (orc1 orc2 : DnfOracle)
    (ds0 : List DriverSt) (rng1 rng2 : List ℚ) (ht : cfg.testMode = true)
    (hstops : ∀ d ∈ ds0, ∀ k, d.stops k = none) :
    (run cfg orc1 ds0 rng1).2 = (run cfg orc2 ds0 rng2).2 := by
  unfold run
  simp only [ht, if_true]
  rw [show initRetirementsAndSafetyCar cfg orc1 ds0 cfg.scTable
      = (ds0.map (simulate_dnf_lap_test cfg), cfg.scTable) by
    unfold initRetirementsAndSafetyCar; rw [if_pos ht]]
  rw [show initRetirementsAndSafetyCar cfg orc2 ds0 cfg.scTable
      = (ds0.map (simulate_dnf_lap_test cfg), cfg.scTable) by
    unfold initRetirementsAndSafetyCar; rw [if_pos ht]]
  simp only
  have hinv : ∀ d ∈ add_starting_grid_time cfg.startingGrid
      (ds0.map (simulate_dnf_lap_test cfg)), ∀ k, d.stops k = none := by
    apply add_starting_grid_time_stops_inv
    intro d hd k
    rcases List.mem_map.mp hd with ⟨e, he, hed⟩
    rw [← hed, simulate_dnf_lap_test_stops]
    exact hstops e he k
  have h := statesUpTo_testmode_rng_indep cfg ht
    (add_starting_grid_time cfg.startingGrid (ds0.map (simulate_dnf_lap_test cfg)))
    cfg.scTable rng1 rng2 hinv cfg.numberOfLaps
  rw [h.1]

/-- Counterexample to C4 as stated: a one-lap test-mode race whose only
driver pits at lap 1.  The pit duration still samples the Fisk
distribution (`calculate_pit_stop_duration` draws regardless of
test mode), so random streams `[1]` and `[2]` give different
cumulative times and different outcomes tables. -/
theorem test_mode_determinism_counterexample :
    cfgC4.testMode = true
    ∧ (run cfgC4 orcNone [driverC4] [1]).2.map (fun o => o.cumulativeTime) = [121]
    ∧ (run cfgC4 orcNone [driverC4] [2]).2.map (fun o => o.cumulativeTime) = [122]
    ∧ (run cfgC4 orcNone [driverC4] [1]).2 ≠ (run cfgC4 orcNone [driverC4] [2]).2 := by
  have h1 : (run cfgC4 orcNone [driverC4] [1]).2.map (fun o => o.cumulativeTime)
      = [121] := by
    norm_num [run, statesUpTo, lapBody, mapRng, driverLap, update_status, update_info,
      compute_lap_time, pit_stop, calcPitDuration, positionsUpdate, finalOutcomes,
      finalRanking, finSorted, dnfSorted, rankedIdx, finalPos, listIdx,
      add_starting_grid_time, initRetirementsAndSafetyCar, simulate_dnf_lap_test,
      cfgC4, driverC4, baseDriver, orcNone, List.insertionSort, List.orderedInsert]
  have h2 : (run cfgC4 orcNone [driverC4] [2]).2.map (fun o => o.cumulativeTime)
      = [122] := by
    norm_num [run, statesUpTo, lapBody, mapRng, driverLap, update_status, update_info,
      compute_lap_time, pit_stop, calcPitDuration, positionsUpdate, finalOutcomes,
      finalRanking, finSorted, dnfSorted, rankedIdx, finalPos, listIdx,
      add_starting_grid_time, initRetirementsAndSafetyCar, simulate_dnf_lap_test,
      cfgC4, driverC4, baseDriver, orcNone, List.insertionSort, List.orderedInsert]
  refine ⟨rfl, h1, h2, ?_⟩
  intro he
  rw [he] at h1
  rw [h1] at h2
  have : (121 : ℚ) = 122 := (List.cons.inj h2).1
  norm_num at this

/-- Witness for C4 amended: a pit-free test-mode race gives identical
outcomes under different oracles and streams. -/
theorem test_mode_determinism_witness :
    (run cfgC4 orcNone [baseDriver] [5]).2
      = (run cfgC4 ⟨fun _ => some 1, fun _ => true⟩ [baseDriver] [9]).2 :=
  test_mode_determinism cfgC4 orcNone ⟨fun _ => some 1, fun _ => true⟩ [baseDriver]
    [5] [9] rfl
    (fun d hd k => by
      have : d = baseDriver := by simpa using hd
      rw [this]
      rfl)

/-! ### Starting-grid construction (C9) -/

theorem foldr_max_le_mem {x : ℕ} : ∀ {l : List ℕ}, x ∈ l → x ≤ l.foldr max 0 := by
  intro l
  induction l with
  | nil => intro h; cases h
  | cons a as ih =>
    intro h
    rcases List.mem_cons.mp h with h1 | h1
    · subst h1
      exact le_max_left _ _
    · exact le_trans (ih h1) (le_max_right _ _)

theorem qualPart_perm (raceId : ℕ) (quals : List QualRow) :
    List.Perm (qualPart raceId quals) (quals.filter fun q => q.raceId = raceId) :=
  List.perm_insertionSort _ _

theorem qualPart_sorted_positions (raceId : ℕ) (quals : List QualRow) :
    ((qualPart raceId quals).map fun q => q.position).Pairwise (· ≤ ·) := by
  have hs : List.Sorted (fun a b : QualRow => a.position ≤ b.position)
      (qualPart raceId quals) := by
    haveI : IsTotal QualRow (fun a b => a.position ≤ b.position) :=
      ⟨fun a b => le_total _ _⟩
    haveI : IsTrans QualRow (fun a b => a.position ≤ b.position) :=
      ⟨fun _ _ _ h1 h2 => le_trans h1 h2⟩
    exact List.sorted_insertionSort _ _
  exact List.Pairwise.map _ (fun a b h => h) hs

theorem qualPart_le_maxPos (raceId : ℕ) (quals : List QualRow) :
    ∀ q ∈ qualPart raceId quals, q.position ≤ qualMaxPos raceId quals := by
  intro q hq
  exact foldr_max_le_mem (List.mem_map_of_mem _ hq)

theorem missingSorted_names_sorted (raceId : ℕ) (quals : List QualRow)
    (sf : List SfRow) (drivers : List DriverRow) :
    ((missingSorted raceId quals sf drivers).map fun d => d.name).Pairwise (· ≤ ·) := by
  have hs : List.Sorted (fun a b : DriverRow => a.name ≤ b.name)
      (missingSorted raceId quals sf drivers) := by
    haveI : IsTotal DriverRow (fun a b => a.name ≤ b.name) :=
      ⟨fun a b => le_total _ _⟩
    haveI : IsTrans DriverRow (fun a b => a.name ≤ b.name) :=
      ⟨fun _ _ _ h1 h2 => le_trans h1 h2⟩
    exact List.sorted_insertionSort _ _
  exact List.Pairwise.map _ (fun a b h => h) hs

theorem missingSorted_ids_iff (raceId : ℕ) (quals : List QualRow) (sf : List SfRow)
    (drivers : List DriverRow) (i : ℕ) :
    i ∈ (missingSorted raceId quals sf drivers).map (fun d => d.id) ↔
      ((∃ d ∈ drivers, d.id = i)
        ∧ i ∈ (sf.filter fun r => r.raceId = raceId).map (fun r => r.driverId)
        ∧ i ∉ (quals.filter fun q => q.raceId = raceId).map (fun q => q.driverId)) := by
  unfold missingSorted
  rw [List.mem_map]
  constructor
  · rintro ⟨d, hd, rfl⟩
    rw [(List.perm_insertionSort _ _).mem_iff, List.mem_filter] at hd
    rcases hd with ⟨hdrv, hmiss⟩
    rw [decide_eq_true_eq] at hmiss
    unfold missingIds at hmiss
    rw [List.mem_filter, List.mem_dedup] at hmiss
    rcases hmiss with ⟨hent, hnq⟩
    rw [decide_eq_true_eq] at hnq
    refine ⟨⟨d, hdrv, rfl⟩, hent, ?_⟩
    intro hcon
    apply hnq
    rcases List.mem_map.mp hcon with ⟨q, hq, hqi⟩
    exact List.mem_map.mpr ⟨q, (qualPart_perm raceId quals).mem_iff.mpr hq, hqi⟩
  · rintro ⟨⟨d, hdrv, rfl⟩, hent, hnq⟩
    refine ⟨d, ?_, rfl⟩
    rw [(List.perm_insertionSort _ _).mem_iff, List.mem_filter]
    refine ⟨hdrv, ?_⟩
    rw [decide_eq_true_eq]
    unfold missingIds
    rw [List.mem_filter, List.mem_dedup]
    refine ⟨hent, ?_⟩
    rw [decide_eq_true_eq]
    intro hcon
    apply hnq
    rcases List.mem_map.mp hcon with ⟨q, hq, hqi⟩
    exact List.mem_map.mpr ⟨q, (qualPart_perm raceId quals).mem_iff.mp hq, hqi⟩

theorem appended_positions_eq (c : ℕ) (l : List DriverRow) :
    ((l.enum.map fun p => (p.2.id, c + p.1 + 1)).map Prod.snd)
      = List.range' (c + 1) l.length := by
  rw [List.map_map]
  have h1 : (Prod.snd ∘ fun p : ℕ × DriverRow => (p.2.id, c + p.1 + 1))
      = fun p : ℕ × DriverRow => c + p.1 + 1 := rfl
  rw [h1]
  have h2 : (l.enum.map fun p : ℕ × DriverRow => c + p.1 + 1)
      = (l.enum.map Prod.fst).map fun i => c + i + 1 := by
    rw [List.map_map]
    rfl
  rw [h2, List.enum_map_fst, List.range'_eq_map_range]
  apply List.map_congr_left
  intro a _
  omega

theorem appended_ids_eq (c : ℕ) (l : List DriverRow) :
    ((l.enum.map fun p => (p.2.id, c + p.1 + 1)).map Prod.fst)
      = l.map fun d => d.id := by
  rw [List.map_map]
  have h1 : (Prod.fst ∘ fun p : ℕ × DriverRow => (p.2.id, c + p.1 + 1))
      = fun p : ℕ × DriverRow => p.2.id := rfl
  rw [h1]
  have h2 : (l.enum.map fun p : ℕ × DriverRow => p.2.id)
      = (l.enum.map Prod.snd).map fun d => d.id := by
    rw [List.map_map]
    rfl
  rw [h2, List.enum_map_snd]

/-- C9: the starting grid is the qualifying rows of the race, sorted by
ascending position, followed by the starter-field entrants without a
qualifying row that the drivers table knows, in alphabetical name order,
carrying the consecutive positions `max_pos + 1, max_pos + 2, …`, each
strictly beyond every qualifying position.  The construction is a pure
function of the three tables, hence deterministic. -/
theorem starting_grid_construction (raceId : ℕ) (quals : List QualRow)
    (sf : List SfRow) (drivers : List DriverRow) :
    (buildStartingGrid raceId quals sf drivers
        = ((qualPart raceId quals).map fun q => (q.driverId, q.position))
          ++ (missingSorted raceId quals sf drivers).enum.map
              (fun p => (p.2.id, qualMaxPos raceId quals + p.1 + 1)))
    ∧ List.Perm (qualPart raceId quals) (quals.filter fun q => q.raceId = raceId)
    ∧ ((qualPart raceId quals).map fun q => q.position).Pairwise (· ≤ ·)
    ∧ (∀ i : ℕ, i ∈ (missingSorted raceId quals sf drivers).map (fun d => d.id) ↔
        ((∃ d ∈ drivers, d.id = i)
          ∧ i ∈ (sf.filter fun r => r.raceId = raceId).map (fun r => r.driverId)
          ∧ i ∉ (quals.filter fun q => q.raceId = raceId).map (fun q => q.driverId)))
    ∧ ((missingSorted raceId quals sf drivers).map fun d => d.name).Pairwise (· ≤ ·)
    ∧ (((missingSorted raceId quals sf drivers).enum.map
          fun p => (p.2.id, qualMaxPos raceId quals + p.1 + 1)).map Prod.snd)
        = List.range' (qualMaxPos raceId quals + 1)
            (missingSorted raceId quals sf drivers).length
    ∧ (∀ q ∈ qualPart raceId quals, q.position ≤ qualMaxPos raceId quals) :=
  ⟨rfl, qualPart_perm raceId quals, qualPart_sorted_positions raceId quals,
   missingSorted_ids_iff raceId quals sf drivers,
   missingSorted_names_sorted raceId quals sf drivers,
   appended_positions_eq (qualMaxPos raceId quals) (missingSorted raceId quals sf drivers),
   qualPart_le_maxPos raceId quals⟩

/-- Witness for C9: in the concrete tables, a qualifying row of race 1
has a position bounded by the maximum, and entrant 20 (starter field
only) is appended. -/
theorem starting_grid_construction_witness :
    (⟨1, 11, 1⟩ : QualRow).position ≤ qualMaxPos 1 qualsW
    ∧ (20 : ℕ) ∈ (missingSorted 1 qualsW sfW driversW).map (fun d => d.id) :=
  ⟨(starting_grid_construction 1 qualsW sfW driversW).2.2.2.2.2.2 ⟨1, 11, 1⟩ (by decide),
   ((starting_grid_construction 1 qualsW sfW driversW).2.2.2.1 20).mpr
     ⟨⟨⟨20, "Zeta"⟩, by decide, rfl⟩, by decide, by decide⟩⟩

/-! ### Starting-grid time penalty (C10) -/

theorem updateFirst_ids (ds : List DriverSt) (i : ℕ) (f : DriverSt → DriverSt)
    (hf : ∀ d, (f d).driverId = d.driverId) :
    (updateFirst ds i f).map (fun d => d.driverId) = ds.map fun d => d.driverId := by
  induction ds with
  | nil => rfl
  | cons a as ih =>
    unfold updateFirst
    by_cases ha : a.driverId = i
    · rw [if_pos ha]
      simp [hf a]
    · rw [if_neg ha]
      simp [ih]

theorem updateFirst_getElem (i : ℕ) (f : DriverSt → DriverSt) :
    ∀ (ds : List DriverSt) (j : ℕ) (d : DriverSt),
      (ds.map (fun d => d.driverId)).Nodup → ds[j]? = some d →
      (updateFirst ds i f)[j]? = some (if d.driverId = i then f d else d) := by
  intro ds
  induction ds with
  | nil => intro j d _ h; simp at h
  | cons a as ih =>
    intro j d hnd h
    have hnd2 : (as.map fun d => d.driverId).Nodup := (List.nodup_cons.mp hnd).2
    have hna : a.driverId ∉ as.map fun d => d.driverId := (List.nodup_cons.mp hnd).1
    cases j with
    | zero =>
      have had : a = d := by simpa using h
      subst had
      unfold updateFirst
      by_cases ha : a.driverId = i
      · rw [if_pos ha]
        simp [ha]
      · rw [if_neg ha]
        simp [ha]
    | succ j =>
      have hs : as[j]? = some d := by simpa using h
      unfold updateFirst
      by_cases ha : a.driverId = i
      · rw [if_pos ha]
        have hdne : ¬ d.driverId = i := by
          intro hdi
          apply hna
          have hmem : d ∈ as := by
            rcases List.getElem?_eq_some.mp hs with ⟨hlt, hv⟩
            exact hv ▸ List.getElem_mem hlt
          have hin : d.driverId ∈ as.map fun d => d.driverId :=
            List.mem_map_of_mem _ hmem
          rw [ha, ← hdi]
          exact hin
        rw [if_neg hdne]
        simpa using hs
      · rw [if_neg ha]
        have := ih j d hnd2 hs
        simpa using this

theorem add_starting_grid_time_getElem :
    ∀ (grid : List (ℕ × ℕ)) (ds : List DriverSt) (j : ℕ) (d : DriverSt),
      (grid.map Prod.fst).Nodup → (ds.map (fun d => d.driverId)).Nodup →
      ds[j]? = some d →
      ∃ d', (add_starting_grid_time grid ds)[j]? = some d'
        ∧ zeroCum d' = zeroCum d
        ∧ d'.cumulativeLapTime = d.cumulativeLapTime + gridBonus grid d.driverId := by
  intro grid
  induction grid with
  | nil =>
    intro ds j d _ _ h
    refine ⟨d, h, rfl, ?_⟩
    show d.cumulativeLapTime = d.cumulativeLapTime + 0
    rw [add_zero]
  | cons p rest ih =>
    intro ds j d hgrid hds h
    have hgrid2 : (rest.map Prod.fst).Nodup := (List.nodup_cons.mp hgrid).2
    have hpnotin : p.1 ∉ rest.map Prod.fst := (List.nodup_cons.mp hgrid).1
    have hstep : add_starting_grid_time (p :: rest) ds
        = add_starting_grid_time rest
          (updateFirst ds p.1 fun d =>
            { d with cumulativeLapTime := d.cumulativeLapTime + p.2 * (1 / 4 : ℚ) }) := by
      unfold add_starting_grid_time
      rw [List.foldl_cons]
    have hfid : ∀ e : DriverSt,
        ({ e with cumulativeLapTime := e.cumulativeLapTime + p.2 * (1 / 4 : ℚ) } :
          DriverSt).driverId = e.driverId := fun e => rfl
    have hds2 : ((updateFirst ds p.1 fun d =>
        { d with cumulativeLapTime := d.cumulativeLapTime + p.2 * (1 / 4 : ℚ) }).map
          fun d => d.driverId).Nodup := by
      rw [updateFirst_ids _ _ _ hfid]
      exact hds
    have hj := updateFirst_getElem p.1
      (fun d => { d with cumulativeLapTime := d.cumulativeLapTime + p.2 * (1 / 4 : ℚ) })
      ds j d hds h
    by_cases hdi : d.driverId = p.1
    · rw [if_pos hdi] at hj
      rcases ih _ j _ hgrid2 hds2 hj with ⟨d', hd', hz, hc⟩
      rw [hstep]
      refine ⟨d', hd', hz, ?_⟩
      have hbrest : gridBonus rest d.driverId = 0 := by
        unfold gridBonus
        have hfind : rest.find? (fun q => q.1 = d.driverId) = none := by
          rw [List.find?_eq_none]
          intro q hq
          simp only [decide_eq_true_eq]
          intro hq1
          apply hpnotin
          have hin : q.1 ∈ rest.map Prod.fst := List.mem_map_of_mem _ hq
          rw [hq1, hdi] at hin
          exact hin
        rw [hfind]
      have hbcons : gridBonus (p :: rest) d.driverId = p.2 * (1 / 4 : ℚ) := by
        unfold gridBonus
        rw [List.find?_cons_of_pos _ (by simp [hdi])]
      rw [hbcons, hc]
      show d.cumulativeLapTime + p.2 * (1 / 4 : ℚ) + gridBonus rest _ = _
      rw [hbrest]
      ring
    · rw [if_neg hdi] at hj
      rcases ih _ j _ hgrid2 hds2 hj with ⟨d', hd', hz, hc⟩
      rw [hstep]
      refine ⟨d', hd', hz, ?_⟩
      have hbcons : gridBonus (p :: rest) d.driverId = gridBonus rest d.driverId := by
        unfold gridBonus
        rw [List.find?_cons_of_neg _ (by
          simp only [decide_eq_true_eq]
          exact fun h => hdi h.symm)]
      rw [hbcons]
      exact hc

theorem update_status_cum (d : DriverSt) (lap : ℕ) :
    (update_status d lap).cumulativeLapTime = d.cumulativeLapTime := by
  rw [update_status_eq]
  cases hk : d.earliestDnfLap with
  | none => rfl
  | some k => by_cases hle : k ≤ lap <;> simp [hle]

theorem pit_stop_cum (cfg : RaceCfg) (d : DriverSt) (lap : ℕ) (rng : List ℚ) :
    ((pit_stop cfg d lap rng).2.1).cumulativeLapTime = d.cumulativeLapTime := by
  unfold pit_stop
  cases d.stops d.nextPitStop with
  | none => rfl
  | some entry =>
    simp only
    split
    · cases h : calcPitDuration cfg d.team rng with
      | error e => rfl
      | ok pr => rfl
    · rfl

theorem update_status_setCumPos (d : DriverSt) (lap : ℕ) (c : ℚ) (p : Option ℕ) :
    update_status (setCumPos d c p) lap = setCumPos (update_status d lap) c p := by
  simp only [update_status_eq, setCumPos]
  cases hk : d.earliestDnfLap with
  | none => simp [hk]
  | some k =>
    by_cases h : k ≤ lap
    · simp [h]
    · simp [h, hk]

theorem update_info_setCumPos (d : DriverSt) (lap n : ℕ) (c : ℚ) (p : Option ℕ) :
    update_info (setCumPos d c p) lap n = setCumPos (update_info d lap n) c p := rfl

theorem compute_lap_time_setCumPos (cfg : RaceCfg) (sc : List ℕ) (d : DriverSt)
    (lap : ℕ) (rng : List ℚ) (c : ℚ) (p : Option ℕ) :
    compute_lap_time cfg sc (setCumPos d c p) lap rng
      = compute_lap_time cfg sc d lap rng := rfl

theorem pit_stop_setCumPos (cfg : RaceCfg) (d : DriverSt) (lap : ℕ) (rng : List ℚ)
    (c : ℚ) (p : Option ℕ) :
    pit_stop cfg (setCumPos d c p) lap rng
      = ((pit_stop cfg d lap rng).1,
         setCumPos (pit_stop cfg d lap rng).2.1 c p,
         (pit_stop cfg d lap rng).2.2) := by
  unfold pit_stop
  simp only [setCumPos]
  cases hs : d.stops d.nextPitStop with
  | none => rfl
  | some entry =>
    simp only
    by_cases hcond : lap = entry.pitStopLap
        ∨ (entry.intervalLo ≤ lap ∧ lap < entry.intervalHi)
    · rw [if_pos hcond, if_pos hcond]
      cases hc : calcPitDuration cfg d.team rng with
      | error e => rfl
      | ok pr => rfl
    · rw [if_neg hcond, if_neg hcond]

theorem driverLap_setCumPos (cfg : RaceCfg) (sc : List ℕ) (lap : ℕ) (d : DriverSt)
    (rng : List ℚ) (c : ℚ) (p : Option ℕ) :
    driverLap cfg sc lap (setCumPos d c p) rng
      = (setCumPos (driverLap cfg sc lap d rng).1
          (c + ((driverLap cfg sc lap d rng).1.cumulativeLapTime
            - d.cumulativeLapTime)) p,
         (driverLap cfg sc lap d rng).2) := by
  simp only [driverLap]
  rw [update_status_setCumPos]
  have halive : (setCumPos (update_status d lap) c p).alive
      = (update_status d lap).alive := rfl
  rw [halive]
  by_cases h : (update_status d lap).alive = true
  · rw [if_pos h, if_pos h]
    simp only
    rw [update_info_setCumPos, compute_lap_time_setCumPos, pit_stop_setCumPos]
    simp only [setCumPos]
    have hcum : ((pit_stop cfg (update_info (update_status d lap) lap cfg.numberOfLaps)
          lap (compute_lap_time cfg sc (update_info (update_status d lap) lap
            cfg.numberOfLaps) lap rng).2).2.1).cumulativeLapTime
        = d.cumulativeLapTime := by
      rw [pit_stop_cum]
      show (update_status d lap).cumulativeLapTime = d.cumulativeLapTime
      exact update_status_cum d lap
    refine Prod.ext ?_ rfl
    apply DriverSt.ext <;> try rfl
    rw [hcum]
    ring
  · rw [if_neg h, if_neg h]
    simp only [setCumPos]
    refine Prod.ext ?_ rfl
    apply DriverSt.ext <;> try rfl
    rw [update_status_cum]
    ring

theorem eq_setCumPos_of_scrub {d1 d2 : DriverSt} (h : scrub d1 = scrub d2) :
    d2 = setCumPos d1 d2.cumulativeLapTime d2.position := by
  cases d1
  cases d2
  simp only [scrub, DriverSt.mk.injEq] at h
  simp only [setCumPos, DriverSt.mk.injEq]
  simp_all

theorem scrub_setCumPos (d : DriverSt) (c : ℚ) (p : Option ℕ) :
    scrub (setCumPos d c p) = scrub d := rfl

theorem relShift_nil {δ : ℕ → ℚ} {ds2 : List DriverSt}
    (h : RelShift δ [] ds2) : ds2 = [] := by
  rcases h with ⟨hlen, _⟩
  exact List.length_eq_zero.mp hlen.symm

theorem relShift_cons {δ : ℕ → ℚ} {d1 : DriverSt} {t1 ds2 : List DriverSt}
    (h : RelShift δ (d1 :: t1) ds2) :
    ∃ d2 t2, ds2 = d2 :: t2 ∧ scrub d1 = scrub d2
      ∧ d2.cumulativeLapTime = d1.cumulativeLapTime + δ 0
      ∧ RelShift (fun j => δ (j + 1)) t1 t2 := by
  rcases h with ⟨hlen, hpt⟩
  cases ds2 with
  | nil => simp at hlen
  | cons d2 t2 =>
    have h0 := hpt 0 d1 d2 (by simp) (by simp)
    refine ⟨d2, t2, rfl, h0.1, h0.2, ?_, ?_⟩
    · simpa using hlen
    · intro j e1 e2 he1 he2
      exact hpt (j + 1) e1 e2 (by simpa using he1) (by simpa using he2)

theorem relShift_cons_intro {δ : ℕ → ℚ} {d1 d2 : DriverSt} {t1 t2 : List DriverSt}
    (h1 : scrub d1 = scrub d2)
    (h2 : d2.cumulativeLapTime = d1.cumulativeLapTime + δ 0)
    (ht : RelShift (fun j => δ (j + 1)) t1 t2) :
    RelShift δ (d1 :: t1) (d2 :: t2) := by
  rcases ht with ⟨hlen, hpt⟩
  refine ⟨by simpa using hlen, ?_⟩
  intro j e1 e2 he1 he2
  cases j with
  | zero =>
    have a1 : e1 = d1 := by
      have := he1
      simp at this
      exact this.symm
    have a2 : e2 = d2 := by
      have := he2
      simp at this
      exact this.symm
    subst a1
    subst a2
    exact ⟨h1, h2⟩
  | succ j =>
    exact hpt j e1 e2 (by simpa using he1) (by simpa using he2)

theorem mapRng_relshift (cfg : RaceCfg) (sc : List ℕ) (lap : ℕ) :
    ∀ (ds1 ds2 : List DriverSt) (δ : ℕ → ℚ) (rng : List ℚ),
      RelShift δ ds1 ds2 →
      (mapRng (driverLap cfg sc lap) ds2 rng).2
          = (mapRng (driverLap cfg sc lap) ds1 rng).2
        ∧ RelShift δ (mapRng (driverLap cfg sc lap) ds1 rng).1
            (mapRng (driverLap cfg sc lap) ds2 rng).1 := by
  intro ds1
  induction ds1 with
  | nil =>
    intro ds2 δ rng h
    rw [relShift_nil h]
    exact ⟨rfl, ⟨rfl, fun j e1 e2 he1 _ => by simp [mapRng] at he1⟩⟩
  | cons d1 t1 ih =>
    intro ds2 δ rng h
    rcases relShift_cons h with ⟨d2, t2, rfl, hscrub, hcum, htail⟩
    have hd2 : d2 = setCumPos d1 d2.cumulativeLapTime d2.position :=
      eq_setCumPos_of_scrub hscrub
    have hshift := driverLap_setCumPos cfg sc lap d1 rng d2.cumulativeLapTime d2.position
    have hhead : driverLap cfg sc lap d2 rng
        = (setCumPos (driverLap cfg sc lap d1 rng).1
            (d2.cumulativeLapTime + ((driverLap cfg sc lap d1 rng).1.cumulativeLapTime
              - d1.cumulativeLapTime)) d2.position,
           (driverLap cfg sc lap d1 rng).2) := by
      rw [hd2]
      exact hshift
    rcases ih t2 (fun j => δ (j + 1)) (driverLap cfg sc lap d1 rng).2 htail
      with ⟨ihrng, ihrel⟩
    constructor
    · show (let r1 := driverLap cfg sc lap d2 rng
            let r2 := mapRng (driverLap cfg sc lap) t2 r1.2
            (r1.1 :: r2.1, r2.2)).2 = _
      rw [hhead]
      simp only
      rw [ihrng]
      rfl
    · show RelShift δ
        (let r1 := driverLap cfg sc lap d1 rng
         let r2 := mapRng (driverLap cfg sc lap) t1 r1.2
         (r1.1 :: r2.1, r2.2)).1
        (let r1 := driverLap cfg sc lap d2 rng
         let r2 := mapRng (driverLap cfg sc lap) t2 r1.2
         (r1.1 :: r2.1, r2.2)).1
      rw [hhead]
      simp only
      apply relShift_cons_intro
      · rw [scrub_setCumPos]
      · rw [hcum]
        show (setCumPos _ _ _).cumulativeLapTime = _
        simp only [setCumPos]
        ring
      · exact ihrel

theorem positionsUpdate_scrub (ds : List DriverSt) (j : ℕ) (d : DriverSt)
    (h : ds[j]? = some d) :
    ∃ e, (positionsUpdate ds)[j]? = some e ∧ scrub e = scrub d
      ∧ e.cumulativeLapTime = d.cumulativeLapTime := by
  unfold positionsUpdate
  rw [List.getElem?_map, List.getElem?_enum, h]
  simp only [Option.map_some]
  by_cases ha : d.alive = true <;> exact ⟨_, rfl, by simp [ha, scrub], by simp [ha]⟩

theorem positionsUpdate_relshift (δ : ℕ → ℚ) (ds1 ds2 : List DriverSt)
    (h : RelShift δ ds1 ds2) :
    RelShift δ (positionsUpdate ds1) (positionsUpdate ds2) := by
  rcases h with ⟨hlen, hpt⟩
  refine ⟨by rw [positionsUpdate_length, positionsUpdate_length, hlen], ?_⟩
  intro j e1 e2 he1 he2
  have hj1 : j < ds1.length := by
    have hb := (List.getElem?_eq_some.mp he1).1
    rwa [positionsUpdate_length] at hb
  have hj2 : j < ds2.length := by rw [← hlen]; exact hj1
  have h1 : ds1[j]? = some (ds1.get ⟨j, hj1⟩) := List.getElem?_eq_getElem hj1
  have h2 : ds2[j]? = some (ds2.get ⟨j, hj2⟩) := List.getElem?_eq_getElem hj2
  rcases positionsUpdate_scrub ds1 j _ h1 with ⟨f1, hf1, hs1, hc1⟩
  rcases positionsUpdate_scrub ds2 j _ h2 with ⟨f2, hf2, hs2, hc2⟩
  have he1f : e1 = f1 := Option.some.inj (he1.symm.trans hf1)
  have he2f : e2 = f2 := Option.some.inj (he2.symm.trans hf2)
  subst he1f
  subst he2f
  rcases hpt j _ _ h1 h2 with ⟨hsc, hcc⟩
  exact ⟨hs1.trans (hsc.trans hs2.symm), by rw [hc1, hc2, hcc]⟩

theorem lapBody_sc (cfg : RaceCfg) (lap : ℕ) (s : SimSt) :
    (lapBody cfg lap s).safetyCarLaps = s.safetyCarLaps := rfl

theorem statesUpTo_sc (cfg : RaceCfg) (s : SimSt) :
    ∀ m, (statesUpTo cfg s m).safetyCarLaps = s.safetyCarLaps := by
  intro m
  induction m with
  | zero => rfl
  | succ m ih => rw [statesUpTo, lapBody_sc]; exact ih

theorem statesUpTo_relshift (cfg : RaceCfg) (δ : ℕ → ℚ) (ds1 ds2 : List DriverSt)
    (sc : List ℕ) (rng : List ℚ) (h : RelShift δ ds1 ds2) :
    ∀ m, RelShift δ (statesUpTo cfg ⟨ds1, sc, rng, []⟩ m).drivers
        (statesUpTo cfg ⟨ds2, sc, rng, []⟩ m).drivers
      ∧ (statesUpTo cfg ⟨ds2, sc, rng, []⟩ m).rng
        = (statesUpTo cfg ⟨ds1, sc, rng, []⟩ m).rng := by
  intro m
  induction m with
  | zero => exact ⟨h, rfl⟩
  | succ m ih =>
    rcases ih with ⟨ihrel, ihrng⟩
    set s1 := statesUpTo cfg ⟨ds1, sc, rng, []⟩ m with hs1
    set s2 := statesUpTo cfg ⟨ds2, sc, rng, []⟩ m with hs2
    have hsc1 : s1.safetyCarLaps = sc := statesUpTo_sc cfg _ m
    have hsc2 : s2.safetyCarLaps = sc := statesUpTo_sc cfg _ m
    have hmap := mapRng_relshift cfg sc (m + 1) s1.drivers s2.drivers δ s1.rng ihrel
    constructor
    · show RelShift δ (lapBody cfg (m + 1) s1).drivers (lapBody cfg (m + 1) s2).drivers
      show RelShift δ
        (positionsUpdate ((mapRng (driverLap cfg s1.safetyCarLaps (m + 1))
          s1.drivers s1.rng).1))
        (positionsUpdate ((mapRng (driverLap cfg s2.safetyCarLaps (m + 1))
          s2.drivers s2.rng).1))
      rw [hsc1, hsc2, ihrng]
      exact positionsUpdate_relshift δ _ _ hmap.2
    · show (lapBody cfg (m + 1) s2).rng = (lapBody cfg (m + 1) s1).rng
      show (mapRng (driverLap cfg s2.safetyCarLaps (m + 1)) s2.drivers s2.rng).2
        = (mapRng (driverLap cfg s1.safetyCarLaps (m + 1)) s1.drivers s1.rng).2
      rw [hsc1, hsc2, ihrng]
      exact hmap.1

theorem update_status_id (d : DriverSt) (lap : ℕ) :
    (update_status d lap).driverId = d.driverId := by
  rw [update_status_eq]
  cases hk : d.earliestDnfLap with
  | none => rfl
  | some k => by_cases hle : k ≤ lap <;> simp [hle]

theorem pit_stop_id (cfg : RaceCfg) (d : DriverSt) (lap : ℕ) (rng : List ℚ) :
    ((pit_stop cfg d lap rng).2.1).driverId = d.driverId := by
  unfold pit_stop
  cases d.stops d.nextPitStop with
  | none => rfl
  | some entry =>
    simp only
    split
    · cases h : calcPitDuration cfg d.team rng with
      | error e => rfl
      | ok pr => rfl
    · rfl

theorem driverLap_id (cfg : RaceCfg) (sc : List ℕ) (lap : ℕ) (d : DriverSt)
    (rng : List ℚ) : (driverLap cfg sc lap d rng).1.driverId = d.driverId := by
  unfold driverLap
  by_cases h : (update_status d lap).alive = true
  · rw [if_pos h]
    simp only
    rw [pit_stop_id]
    show (update_status d lap).driverId = d.driverId
    exact update_status_id d lap
  · rw [if_neg h]
    show (update_status d lap).driverId = d.driverId
    exact update_status_id d lap

theorem statesUpTo_id (cfg : RaceCfg) (s0 : SimSt) (j : ℕ) (d : DriverSt)
    (h : s0.drivers[j]? = some d) :
    ∀ m, ∃ d', (statesUpTo cfg s0 m).drivers[j]? = some d'
      ∧ d'.driverId = d.driverId := by
  intro m
  induction m with
  | zero => exact ⟨d, h, rfl⟩
  | succ m ih =>
    rcases ih with ⟨dm, hm, hid⟩
    rcases mapRng_getElem_ex (driverLap cfg (statesUpTo cfg s0 m).safetyCarLaps (m + 1))
      (statesUpTo cfg s0 m).drivers (statesUpTo cfg s0 m).rng j dm hm with ⟨r, hr⟩
    rcases positionsUpdate_fields _ j _ hr with ⟨d', hd', _, _, _, _, _, hdid, _⟩
    refine ⟨d', hd', ?_⟩
    rw [hdid, driverLap_id, hid]

theorem finalOutcomes_getElem (ds : List DriverSt) (j : ℕ) :
    (finalOutcomes ds)[j]? = (ds[j]?).map fun d =>
      { driverId := d.driverId, driverName := d.name,
        finalPosition := finalPos ds j, cumulativeTime := d.cumulativeLapTime } := by
  unfold finalOutcomes
  rw [List.getElem?_map, List.getElem?_enum]
  cases ds[j]? <;> rfl

theorem scrub_of_zeroCum {d1 d2 : DriverSt} (h : zeroCum d1 = zeroCum d2) :
    scrub d1 = scrub d2 :=
  congrArg (fun x => { x with position := none }) h

theorem zeroCum_id {d1 d2 : DriverSt} (h : zeroCum d1 = zeroCum d2) :
    d1.driverId = d2.driverId :=
  congrArg (fun x => x.driverId) h

theorem scrub_id {d1 d2 : DriverSt} (h : scrub d1 = scrub d2) :
    d1.driverId = d2.driverId :=
  congrArg (fun x => x.driverId) h

theorem add_starting_grid_time_nil (ds : List DriverSt) :
    add_starting_grid_time [] ds = ds := rfl

theorem foldl_initStep_fst (cfg : RaceCfg) (orc : DnfOracle) :
    ∀ (l : List (ℕ × DriverSt)) (acc : List DriverSt × List ℕ),
      (l.foldl (initStep cfg orc) acc).1
        = acc.1 ++ l.map fun p => { p.2 with earliestDnfLap := orc.dnfLap p.1 } := by
  intro l
  induction l with
  | nil => intro acc; simp
  | cons p rest ih =>
    intro acc
    rw [List.foldl_cons, ih]
    show (initStep cfg orc acc p).1 ++ _ = _
    unfold initStep
    simp

theorem simulate_dnf_lap_test_id (cfg : RaceCfg) (d : DriverSt) :
    (simulate_dnf_lap_test cfg d).driverId = d.driverId := by
  unfold simulate_dnf_lap_test
  cases cfg.dnfTable d.name <;> rfl

theorem initRetirements_ids (cfg : RaceCfg) (orc : DnfOracle) (ds : List DriverSt)
    (sc : List ℕ) :
    (initRetirementsAndSafetyCar cfg orc ds sc).1.map (fun d => d.driverId)
      = ds.map fun d => d.driverId := by
  unfold initRetirementsAndSafetyCar
  by_cases ht : cfg.testMode
  · rw [if_pos ht, List.map_map]
    apply List.map_congr_left
    intro d _
    exact simulate_dnf_lap_test_id cfg d
  · rw [if_neg ht, foldl_initStep_fst]
    rw [List.nil_append, List.map_map]
    have h1 : ((fun d => d.driverId) ∘ fun p : ℕ × DriverSt =>
        { p.2 with earliestDnfLap := orc.dnfLap p.1 }) = fun p : ℕ × DriverSt =>
          p.2.driverId := rfl
    rw [h1]
    have h2 : (ds.enum.map fun p : ℕ × DriverSt => p.2.driverId)
        = (ds.enum.map Prod.snd).map fun d => d.driverId := by
      rw [List.map_map]
      rfl
    rw [h2, List.enum_map_snd]

theorem lapBody_gridIrrel (cfg : RaceCfg) (g : List (ℕ × ℕ)) (lap : ℕ) (s : SimSt) :
    lapBody { cfg with startingGrid := g } lap s = lapBody cfg lap s := rfl

theorem statesUpTo_gridIrrel (cfg : RaceCfg) (g : List (ℕ × ℕ)) (s : SimSt) :
    ∀ m, statesUpTo { cfg with startingGrid := g } s m = statesUpTo cfg s m := by
  intro m
  induction m with
  | zero => rfl
  | succ m ih => rw [statesUpTo, statesUpTo, lapBody_gridIrrel, ih]

theorem initRetirements_gridIrrel (cfg : RaceCfg) (g : List (ℕ × ℕ)) (orc : DnfOracle)
    (ds : List DriverSt) (sc : List ℕ) :
    initRetirementsAndSafetyCar { cfg with startingGrid := g } orc ds sc
      = initRetirementsAndSafetyCar cfg orc ds sc := rfl

/-- C10: before lap 1, `_add_starting_grid_time` raises each driver's
cumulative time from its initial value by exactly `grid_position × 0.25`
seconds (first conjunct, with unique ids), and consequently every
reported `cumulative_time` in the outcomes of a full run exceeds the
corresponding outcome of the identical run without a starting grid — the
pure sum of the lap times — by exactly that penalty (second conjunct). -/
theorem starting_grid_time_penalty :
    (∀ (grid : List (ℕ × ℕ)) (ds : List DriverSt) (j : ℕ) (d : DriverSt),
      (grid.map Prod.fst).Nodup → (ds.map (fun d => d.driverId)).Nodup →
      ds[j]? = some d →
      ∃ d', (add_starting_grid_time grid ds)[j]? = some d'
        ∧ zeroCum d' = zeroCum d
        ∧ d'.cumulativeLapTime = d.cumulativeLapTime + gridBonus grid d.driverId)
    ∧ (∀ (cfg : RaceCfg) (orc : DnfOracle) (ds0 : List DriverSt) (rng : List ℚ)
        (j : ℕ) (o1 o2 : Outcome),
      (cfg.startingGrid.map Prod.fst).Nodup →
      (ds0.map (fun d => d.driverId)).Nodup →
      (run cfg orc ds0 rng).2[j]? = some o1 →
      (run { cfg with startingGrid := [] } orc ds0 rng).2[j]? = some o2 →
      o1.driverId = o2.driverId
        ∧ o1.cumulativeTime
          = o2.cumulativeTime + gridBonus cfg.startingGrid o1.driverId) := by
  refine ⟨add_starting_grid_time_getElem, ?_⟩
  intro cfg orc ds0 rng j o1 o2 hgrid hds ho1 ho2
  set sc0 : List ℕ := if cfg.testMode then cfg.scTable else [] with hsc0
  set ds1 : List DriverSt := (initRetirementsAndSafetyCar cfg orc ds0 sc0).1 with hds1def
  set ds2 : List DriverSt := add_starting_grid_time cfg.startingGrid ds1 with hds2def
  set scI : List ℕ := (initRetirementsAndSafetyCar cfg orc ds0 sc0).2 with hscIdef
  have h1 : (run cfg orc ds0 rng).2
      = finalOutcomes (statesUpTo cfg ⟨ds2, scI, rng, []⟩ cfg.numberOfLaps).drivers := rfl
  have h2 : (run { cfg with startingGrid := [] } orc ds0 rng).2
      = finalOutcomes (statesUpTo cfg ⟨ds1, scI, rng, []⟩ cfg.numberOfLaps).drivers := by
    show finalOutcomes (statesUpTo { cfg with startingGrid := [] }
      ⟨add_starting_grid_time ([] : List (ℕ × ℕ))
        (initRetirementsAndSafetyCar { cfg with startingGrid := [] } orc ds0
          (if ({ cfg with startingGrid := [] } : RaceCfg).testMode
            then ({ cfg with startingGrid := [] } : RaceCfg).scTable else [])).1,
        (initRetirementsAndSafetyCar { cfg with startingGrid := [] } orc ds0
          (if ({ cfg with startingGrid := [] } : RaceCfg).testMode
            then ({ cfg with startingGrid := [] } : RaceCfg).scTable else [])).2,
        rng, []⟩
      ({ cfg with startingGrid := [] } : RaceCfg).numberOfLaps).drivers = _
    rw [statesUpTo_gridIrrel]
    rfl
  have hds1ids : ds1.map (fun d => d.driverId) = ds0.map fun d => d.driverId :=
    initRetirements_ids cfg orc ds0 sc0
  have hds1nodup : (ds1.map fun d => d.driverId).Nodup := by
    rw [hds1ids]; exact hds
  have hrel : RelShift
      (fun k => match ds1[k]? with
        | some d => gridBonus cfg.startingGrid d.driverId
        | none => 0) ds1 ds2 := by
    refine ⟨(add_starting_grid_time_length _ _).symm, ?_⟩
    intro k d1 d2 hk1 hk2
    rcases add_starting_grid_time_getElem cfg.startingGrid ds1 k d1 hgrid hds1nodup hk1
      with ⟨d', hd', hz, hc⟩
    have hdd : d2 = d' := Option.some.inj (hk2.symm.trans hd')
    subst hdd
    refine ⟨(scrub_of_zeroCum hz).symm, ?_⟩
    rw [hc]
    simp only [hk1]
  have hrelF := statesUpTo_relshift cfg _ ds1 ds2 scI rng hrel cfg.numberOfLaps
  set F1 := (statesUpTo cfg ⟨ds1, scI, rng, []⟩ cfg.numberOfLaps).drivers with hF1def
  set F2 := (statesUpTo cfg ⟨ds2, scI, rng, []⟩ cfg.numberOfLaps).drivers with hF2def
  rw [h1, finalOutcomes_getElem] at ho1
  rw [h2, finalOutcomes_getElem] at ho2
  cases hf2 : F2[j]? with
  | none => rw [hf2] at ho1; cases ho1
  | some f2 =>
    cases hf1 : F1[j]? with
    | none => rw [hf1] at ho2; cases ho2
    | some f1 =>
      rw [hf2] at ho1
      rw [hf1] at ho2
      have ho1e : o1 = Outcome.mk f2.driverId f2.name (finalPos F2 j)
          f2.cumulativeLapTime :=
        (Option.some.inj ho1).symm
      have ho2e : o2 = Outcome.mk f1.driverId f1.name (finalPos F1 j)
          f1.cumulativeLapTime :=
        (Option.some.inj ho2).symm
      rcases hrelF.1.2 j f1 f2 hf1 hf2 with ⟨hscr, hcum⟩
      have hj1 : j < ds1.length := by
        have hb := (List.getElem?_eq_some.mp hf1).1
        rwa [statesUpTo_drivers_length] at hb
      have he : ds1[j]? = some (ds1.get ⟨j, hj1⟩) := List.getElem?_eq_getElem hj1
      rcases statesUpTo_id cfg ⟨ds1, scI, rng, []⟩ j (ds1.get ⟨j, hj1⟩) he
        cfg.numberOfLaps with ⟨f1x, hf1x, hf1xid⟩
      have hf1e : f1x = f1 := Option.some.inj (hf1x.symm.trans hf1)
      have hf1id : f1.driverId = (ds1.get ⟨j, hj1⟩).driverId := by
        rw [← hf1e]
        exact hf1xid
      have hidchain : f2.driverId = (ds1.get ⟨j, hj1⟩).driverId := by
        rw [← (scrub_id hscr)]
        exact hf1id
      constructor
      · rw [ho1e, ho2e]
        show f2.driverId = f1.driverId
        exact (scrub_id hscr).symm
      · rw [ho1e, ho2e]
        show f2.cumulativeLapTime
          = f1.cumulativeLapTime + gridBonus cfg.startingGrid f2.driverId
        rw [hcum]
        simp only [he]
        rw [hidchain]

/-- Witness for C10: a one-driver grid at position 4 shifts the
finishing cumulative time by exactly one second. -/
theorem starting_grid_time_penalty_witness :
    ∃ d', (add_starting_grid_time [(1, 4)] [baseDriver])[0]? = some d'
      ∧ zeroCum d' = zeroCum baseDriver
      ∧ d'.cumulativeLapTime
        = baseDriver.cumulativeLapTime + gridBonus [(1, 4)] baseDriver.driverId :=
  starting_grid_time_penalty.1 [(1, 4)] [baseDriver] 0 baseDriver
    (by decide) (by decide) rfl

end F1Sim
